import Mathlib

/-!
Shallow embedding of the 2D NUFFT transform orchestrators
(`finufft2d1`, `finufft2d2`, `finufft2d3`, and the batched `many`
variants) from the single source file of the repository.

Machine floating-point scalars (`FLT`) are modelled by an arbitrary
field `F` with decidable equality; complex values (`CPX`) are pairs
`F × F` with explicit complex arithmetic.  The external helper routines
(spreader, grid planner, kernel Fourier transform, deconvolve/shuffle,
FFT library) are not part of the source file; their observable outcomes
are collected in an `Env` record, with those contracts that the claims
depend on modelled from the specification.

Resource lifetimes (allocation, release, plan creation/destruction) and
the per-transform steps of the batched paths are made observable through
an explicit event trace, translated statement by statement from the
source functions.
-/

set_option linter.unusedSectionVars false

namespace Cnufft

/-- How a call ends: a normal `return code`, or process termination via
`exit(code)` (the source of `finufft2d3` contains an `exit` call). -/
inductive Outcome where
  | ret (code : Int)
  | exited (code : Int)
deriving DecidableEq

/-- The buffers and the FFT plan owned by one invocation. -/
inductive Rsrc where
  | fwkerhalf1
  | fwkerhalf2
  | fw
  | sortIndices
  | xpj
  | ypj
  | cpj
  | sp
  | tp
  | fkker1
  | fkker2
deriving DecidableEq

/-- Observable events of one invocation, in program order: buffer
allocation and release, FFT plan creation (carrying the sign passed to
the planner) and destruction, planner invocation, FFT execution, the
spreader call for transform `d`, the deconvolve/shuffle call writing
(direction 1) or reading (direction 2) the slice of transform `d`, and
the recording of a spreader status into the per-slot arrays
`ier_spreads` / `abort` of the simultaneous batched paths. -/
inductive Ev where
  | alloc (r : Rsrc)
  | free (r : Rsrc)
  | planCreate (sign : Int)
  | planDestroy
  | plannerCall
  | fftExec
  | spread (d : Nat)
  | deconvOut (d : Nat)
  | deconvIn (d : Nat)
  | record (i : Nat) (ier : Int)
deriving DecidableEq

/-- Modelled from the spec: the named nonzero status codes
(`ERR_EPS_TOO_SMALL`, `ERR_MAXNALLOC`, `ERR_SPREAD_PTS_OUT_RANGE`,
`ERR_SPREAD_ALLOC`, `ERR_NDATA_NOTVALID`).  Their numeric values are not
given by the available sources; they are modelled as distinct nonzero
constants, which is all the claims depend on. -/
def ERR_EPS_TOO_SMALL : Int := 1

/-- Modelled from the spec: see `ERR_EPS_TOO_SMALL`. -/
def ERR_MAXNALLOC : Int := 2

/-- Modelled from the spec: see `ERR_EPS_TOO_SMALL`. -/
def ERR_SPREAD_PTS_OUT_RANGE : Int := 3

/-- Modelled from the spec: see `ERR_EPS_TOO_SMALL`. -/
def ERR_SPREAD_ALLOC : Int := 4

/-- Modelled from the spec: see `ERR_EPS_TOO_SMALL`. -/
def ERR_NDATA_NOTVALID : Int := 5

/-- The options record `nufft_opts` (the fields used by the 2D
orchestrators). -/
structure NufftOpts where
  debug : Int
  spread_debug : Int
  spread_sort : Int
  chkbnds : Int
  modeord : Int
  fftw : Int
  many_seq : Int
deriving DecidableEq

section ComplexModel

variable {F : Type} [Field F]

/-- Embed a real scalar as a complex value (real part only). -/
def rc (a : F) : F × F := (a, 0)

/-- Complex multiplication on interleaved pairs. -/
def cmul (z w : F × F) : F × F := (z.1 * w.1 - z.2 * w.2, z.1 * w.2 + z.2 * w.1)

end ComplexModel

/-- Index-carrying map, the model of a C loop `for (k = 0; k < n; ++k)`
writing element `k` of the result from element `k` of the input:
auxiliary recursion with an explicit starting index. -/
def cmapIdxGo {α β : Type} (f : Nat → α → β) : Nat → List α → List β
  | _, [] => []
  | k, a :: l => f k a :: cmapIdxGo f (k + 1) l

/-- Index-carrying map starting at index 0. -/
def cmapIdx {α β : Type} (f : Nat → α → β) (l : List α) : List β :=
  cmapIdxGo f 0 l

/-- The environment of external collaborator routines: the routines
called by the orchestrators whose sources are outside this file.  Each
field abstracts the observable outcome of one routine; fields whose
behavior a claim depends on are modelled from the specification (see
`onedim_nuft_kernel` below). -/
structure Env (F : Type) where
  /-- Compile-time allocation cap on nf1*nf2. -/
  maxNF : Int
  /-- `MY_OMP_GET_MAX_THREADS()`: ambient thread count. -/
  nth : Int
  /-- `setup_spreader_for_nufft(spopts, eps, opts)` status. -/
  setupIer : F → NufftOpts → Int
  /-- `set_nf_type12(m, opts, spopts, &nf)`: upsampled grid size. -/
  setNf : Int → Int
  /-- `set_nhg_type3(S, X, opts, spopts, &nf, &h, &gam)`. -/
  setNhg : F → F → Int × F × F
  /-- `arraywidcen(n, a, &w, &c)`: half-width and center of a list. -/
  widcen : List F → F × F
  /-- `onedim_fseries_kernel(nf, out, spopts)`: kernel Fourier series. -/
  fseries : Int → List F
  /-- Kernel Fourier transform at one nonuniform frequency. -/
  phihat : F → F
  /-- Library complex exponential. -/
  cexp : F × F → F × F
  /-- `cnufftspread` with `spread_direction = 1`:
  `(nf1, nf2, xj, yj, cj) ↦ (status, fw)`. -/
  spreadD1 : Int → Int → List F → List F → List (F × F) → Int × List (F × F)
  /-- `cnufftspread` with `spread_direction = 2` (interpolation):
  `(nf1, nf2, fw, xj, yj) ↦ (status, cj)`. -/
  interpD2 : Int → Int → List (F × F) → List F → List F → Int × List (F × F)
  /-- `deconvolveshuffle2d` direction 1:
  `(ms, mt, nf1, nf2, fwker1, fwker2, fw, modeord) ↦ fk`. -/
  deconv1 : Int → Int → Int → Int → List F → List F → List (F × F) → Int → List (F × F)
  /-- `deconvolveshuffle2d` direction 2:
  `(ms, mt, nf1, nf2, fwker1, fwker2, fk, modeord) ↦ fw`. -/
  deconv2 : Int → Int → Int → Int → List F → List F → List (F × F) → Int → List (F × F)
  /-- FFT execution on the working grid: `(nf1, nf2, sign, fw) ↦ fw`. -/
  fftRun : Int → Int → Int → List (F × F) → List (F × F)
  /-- `cnufftcheck` status for the (fixed) nonuniform geometry. -/
  checkIer : Int
  /-- `cnufftsort` return value (`did_sort`). -/
  didSort : Int
  /-- `cnufftspreadwithsortidx` status when applied to the data slice of
  transform `d` (geometry and options are fixed within one call). -/
  spreadIdxIer : Nat → Int

/-- Modelled from the spec: `onedim_nuft_kernel(nk, s, out, opts)` fills
`out[k]` with the kernel Fourier transform evaluated at `s[k]`, by
quadrature; the transform itself is abstracted as `env.phihat`. -/
def onedim_nuft_kernel {F : Type} (env : Env F) (s : List F) : List F :=
  s.map env.phihat

section Models

variable {F : Type} [Field F] [DecidableEq F]

/-- Result of `finufft2d1`: status, the output mode array `fk`, and the
event trace. -/
structure R1 (F : Type) where
  ier : Int
  fk : List (F × F)
  trace : List Ev
deriving DecidableEq

/-- Result of `finufft2d2`: status, the output strengths `cj`, and the
event trace. -/
structure R2 (F : Type) where
  ier : Int
  cj : List (F × F)
  trace : List Ev
deriving DecidableEq

/-- `finufft2d1`: type-1 2D transform.  `fk0` is the content of the
caller-supplied output buffer on entry (returned unchanged on paths
that do not write it). -/
def finufft2d1 (env : Env F) (xj yj : List F) (cj : List (F × F)) (iflag : Int)
    (eps : F) (ms mt : Int) (fk0 : List (F × F)) (opts : NufftOpts) : R1 F :=
  let ier_set := env.setupIer eps opts
  if ier_set ≠ 0 then ⟨ier_set, fk0, []⟩ else
  let nf1 := env.setNf ms
  let nf2 := env.setNf mt
  if nf1 * nf2 > env.maxNF then ⟨ERR_MAXNALLOC, fk0, [Ev.plannerCall]⟩ else
  let fwker1 := env.fseries nf1
  let fwker2 := env.fseries nf2
  let fftsign : Int := if 0 ≤ iflag then 1 else -1
  let t0 : List Ev := [Ev.plannerCall, Ev.alloc Rsrc.fwkerhalf1, Ev.alloc Rsrc.fwkerhalf2,
    Ev.alloc Rsrc.fw, Ev.planCreate fftsign]
  let sres := env.spreadD1 nf1 nf2 xj yj cj
  let t1 := t0 ++ [Ev.spread 0]
  if sres.1 > 0 then ⟨sres.1, fk0, t1⟩ else
  let fw2 := env.fftRun nf1 nf2 fftsign sres.2
  let t2 := t1 ++ [Ev.fftExec, Ev.planDestroy]
  let fk1 := env.deconv1 ms mt nf1 nf2 fwker1 fwker2 fw2 opts.modeord
  ⟨0, fk1, t2 ++ [Ev.deconvOut 0, Ev.free Rsrc.fw, Ev.free Rsrc.fwkerhalf1,
    Ev.free Rsrc.fwkerhalf2]⟩

/-- `finufft2d2`: type-2 2D transform.  `fkin` is the input mode array;
`cj0` is the content of the output buffer on entry. -/
def finufft2d2 (env : Env F) (xj yj : List F) (fkin : List (F × F)) (iflag : Int)
    (eps : F) (ms mt : Int) (cj0 : List (F × F)) (opts : NufftOpts) : R2 F :=
  let ier_set := env.setupIer eps opts
  if ier_set ≠ 0 then ⟨ier_set, cj0, []⟩ else
  let nf1 := env.setNf ms
  let nf2 := env.setNf mt
  if nf1 * nf2 > env.maxNF then ⟨ERR_MAXNALLOC, cj0, [Ev.plannerCall]⟩ else
  let fwker1 := env.fseries nf1
  let fwker2 := env.fseries nf2
  let fftsign : Int := if 0 ≤ iflag then 1 else -1
  let t0 : List Ev := [Ev.plannerCall, Ev.alloc Rsrc.fwkerhalf1, Ev.alloc Rsrc.fwkerhalf2,
    Ev.alloc Rsrc.fw, Ev.planCreate fftsign]
  let fw1 := env.deconv2 ms mt nf1 nf2 fwker1 fwker2 fkin opts.modeord
  let t1 := t0 ++ [Ev.deconvIn 0, Ev.fftExec, Ev.planDestroy]
  let fw2 := env.fftRun nf1 nf2 fftsign fw1
  let ires := env.interpD2 nf1 nf2 fw2 xj yj
  let t2 := t1 ++ [Ev.spread 0]
  if ires.1 > 0 then ⟨ires.1, ires.2, t2⟩ else
  ⟨0, ires.2, t2 ++ [Ev.free Rsrc.fw, Ev.free Rsrc.fwkerhalf1, Ev.free Rsrc.fwkerhalf2]⟩

/-- The general rephase formula of `finufft2d3` applied at every source:
`cpj[j] = cj[j] * exp(imasign * (D1*xj[j] + D2*yj[j]))`. -/
def prephaseAll (env : Env F) (imasign : F × F) (D1 D2 : F) (xj yj : List F)
    (cj : List (F × F)) : List (F × F) :=
  cmapIdx (fun j c =>
    cmul c (env.cexp (cmul imasign (rc (D1 * xj.getD j 0 + D2 * yj.getD j 0))))) cj

/-- The rephase step of `finufft2d3` as written in the source: the
general formula when `D1 != 0 || D2 != 0`, a plain copy otherwise. -/
def prephaseLoop (env : Env F) (imasign : F × F) (D1 D2 : F) (xj yj : List F)
    (cj : List (F × F)) : List (F × F) :=
  if D1 ≠ 0 ∨ D2 ≠ 0 then prephaseAll env imasign D1 D2 xj yj cj else cj

/-- The general post-deconvolve formula of `finufft2d3` applied at every
target: `fk[k] *= (1/(fkker1[k]*fkker2[k])) * exp(imasign*((s[k]-D1)*C1
+ (t[k]-D2)*C2))`. -/
def postdeconvAll (env : Env F) (imasign : F × F) (C1 D1 C2 D2 : F) (s t : List F)
    (fkker1 fkker2 : List F) (fk : List (F × F)) : List (F × F) :=
  cmapIdx (fun k fkk =>
    cmul fkk (cmul (rc (1 / (fkker1.getD k 1 * fkker2.getD k 1)))
      (env.cexp (cmul imasign (rc ((s.getD k 0 - D1) * C1 + (t.getD k 0 - D2) * C2)))))) fk

/-- The post-deconvolve step of `finufft2d3` as written in the source:
the phased formula when the centers are nonzero, the plain kernel
division otherwise.  The `isfinite(C1) && isfinite(C2)` guard of the
source is modelled as always true: the scalar model is a field with no
IEEE non-finite values. -/
def postdeconvLoop (env : Env F) (imasign : F × F) (C1 D1 C2 D2 : F) (s t : List F)
    (fkker1 fkker2 : List F) (fk : List (F × F)) : List (F × F) :=
  if C1 ≠ 0 ∨ C2 ≠ 0 then postdeconvAll env imasign C1 D1 C2 D2 s t fkker1 fkker2 fk
  else cmapIdx (fun k fkk => cmul fkk (rc (1 / (fkker1.getD k 1 * fkker2.getD k 1)))) fk

/-- Result of `finufft2d3`: the outcome (which may be a process exit),
the final contents of every caller-visible array, the imaginary sign
used in the phase factors (`none` on paths that never compute it), and
the event trace. -/
structure R3 (F : Type) where
  outcome : Outcome
  xj : List F
  yj : List F
  cj : List (F × F)
  s : List F
  t : List F
  fk : List (F × F)
  imasign : Option (F × F)
  trace : List Ev
deriving DecidableEq

/-- `finufft2d3`: type-3 2D transform, translated statement by statement
from the source.  `fk0` is the content of the caller-supplied output
buffer on entry. -/
def finufft2d3 (env : Env F) (xj yj : List F) (cj : List (F × F)) (s t : List F)
    (iflag : Int) (eps : F) (fk0 : List (F × F)) (opts : NufftOpts) : R3 F :=
  let ier_set := env.setupIer eps opts
  if ier_set ≠ 0 then ⟨Outcome.ret ier_set, xj, yj, cj, s, t, fk0, none, []⟩ else
  let w1 := env.widcen xj
  let ws := env.widcen s
  let w2 := env.widcen yj
  let wt := env.widcen t
  let X1 := w1.1; let C1 := w1.2
  let S1 := ws.1; let D1 := ws.2
  let X2 := w2.1; let C2 := w2.2
  let S2 := wt.1; let D2 := wt.2
  let ng1 := env.setNhg S1 X1
  let ng2 := env.setNhg S2 X2
  let nf1 := ng1.1; let h1 := ng1.2.1; let gam1 := ng1.2.2
  let nf2 := ng2.1; let h2 := ng2.2.1; let gam2 := ng2.2.2
  if nf1 * nf2 > env.maxNF then
    ⟨Outcome.ret ERR_MAXNALLOC, xj, yj, cj, s, t, fk0, none, [Ev.plannerCall]⟩ else
  let xpj := xj.map (fun x => (x - C1) / gam1)
  let ypj := yj.map (fun y => (y - C2) / gam2)
  let imasign : F × F := if 0 ≤ iflag then (0, 1) else (0, -1)
  let cpj := prephaseLoop env imasign D1 D2 xj yj cj
  let sres := env.spreadD1 nf1 nf2 xpj ypj cpj
  let tA : List Ev := [Ev.plannerCall, Ev.alloc Rsrc.xpj, Ev.alloc Rsrc.ypj,
    Ev.alloc Rsrc.cpj, Ev.alloc Rsrc.fw, Ev.spread 0, Ev.free Rsrc.xpj,
    Ev.free Rsrc.ypj, Ev.free Rsrc.cpj]
  if sres.1 > 0 then
    ⟨Outcome.ret sres.1, xj, yj, cj, s, t, fk0, some imasign, tA⟩ else
  let sp := s.map (fun sk => h1 * gam1 * (sk - D1))
  let tp := t.map (fun tk => h2 * gam2 * (tk - D2))
  let r2 := finufft2d2 env sp tp sres.2 iflag eps nf1 nf2 fk0 opts
  let tB := tA ++ [Ev.alloc Rsrc.sp, Ev.alloc Rsrc.tp] ++ r2.trace ++ [Ev.free Rsrc.fw]
  if r2.ier ≠ 0 then
    ⟨Outcome.exited r2.ier, xj, yj, cj, s, t, r2.cj, some imasign, tB⟩ else
  let fkker1 := onedim_nuft_kernel env sp
  let fkker2 := onedim_nuft_kernel env tp
  let tC := tB ++ [Ev.alloc Rsrc.fkker1, Ev.alloc Rsrc.fkker2, Ev.free Rsrc.sp,
    Ev.free Rsrc.tp]
  let fk2 := postdeconvLoop env imasign C1 D1 C2 D2 s t fkker1 fkker2 r2.cj
  ⟨Outcome.ret 0, xj, yj, cj, s, t, fk2, some imasign,
    tC ++ [Ev.free Rsrc.fkker1, Ev.free Rsrc.fkker2]⟩

/-- The type-3 pipeline exactly as the specification words it (steps
(i)-(v) of the spec, section 4.6), with no fast-path branching:
rephase every source, rescale positions and targets, spread, call the
type-2 routine with the grid sizes acting as the mode counts, divide by
the kernel transform at the rescaled targets, and multiply by the
center-shift phase.  Used as the reference side of the refinement
claim. -/
def spec2d3fk (env : Env F) (xj yj : List F) (cj : List (F × F)) (s t : List F)
    (iflag : Int) (eps : F) (fk0 : List (F × F)) (opts : NufftOpts) : List (F × F) :=
  let w1 := env.widcen xj
  let ws := env.widcen s
  let w2 := env.widcen yj
  let wt := env.widcen t
  let C1 := w1.2; let D1 := ws.2
  let C2 := w2.2; let D2 := wt.2
  let ng1 := env.setNhg ws.1 w1.1
  let ng2 := env.setNhg wt.1 w2.1
  let nf1 := ng1.1; let h1 := ng1.2.1; let gam1 := ng1.2.2
  let nf2 := ng2.1; let h2 := ng2.2.1; let gam2 := ng2.2.2
  let imasign : F × F := if 0 ≤ iflag then (0, 1) else (0, -1)
  let cpj := prephaseAll env imasign D1 D2 xj yj cj
  let xpj := xj.map (fun x => (x - C1) / gam1)
  let ypj := yj.map (fun y => (y - C2) / gam2)
  let sres := env.spreadD1 nf1 nf2 xpj ypj cpj
  let sp := s.map (fun sk => h1 * gam1 * (sk - D1))
  let tp := t.map (fun tk => h2 * gam2 * (tk - D2))
  let fkt2 := (finufft2d2 env sp tp sres.2 iflag eps nf1 nf2 fk0 opts).cj
  cmapIdx (fun k fkk =>
    cmul fkk (cmul (rc (1 / (env.phihat (sp.getD k 0) * env.phihat (tp.getD k 0))))
      (env.cexp (cmul imasign (rc ((s.getD k 0 - D1) * C1 + (t.getD k 0 - D2) * C2)))))) fkt2

/-- Result of a batched entry point: status and event trace (the batched
models track control flow and resource events; the numeric data flows
through the same helper routines as in the single-transform models). -/
structure RM where
  ier : Int
  trace : List Ev
deriving DecidableEq

/-- The per-transform loop body of `finufft2d1manyseq`: spread transform
`d` (returning its status on failure), execute the FFT, deconvolve into
the output slice of `d`. -/
def seqLoop1 (env : Env F) : List Nat → Option Int × List Ev
  | [] => (none, [])
  | d :: ds =>
    let ier := env.spreadIdxIer d
    if ier > 0 then (some ier, [Ev.spread d])
    else
      let rest := seqLoop1 env ds
      (rest.1, [Ev.spread d, Ev.fftExec, Ev.deconvOut d] ++ rest.2)

/-- The per-transform loop body of `finufft2d2manyseq`: amplify and copy
in the mode slice of `d`, execute the FFT, interpolate into the output
slice of `d` (returning the spreader status on failure). -/
def seqLoop2 (env : Env F) : List Nat → Option Int × List Ev
  | [] => (none, [])
  | d :: ds =>
    let ier := env.spreadIdxIer d
    if ier > 0 then (some ier, [Ev.deconvIn d, Ev.fftExec, Ev.spread d])
    else
      let rest := seqLoop2 env ds
      (rest.1, [Ev.deconvIn d, Ev.fftExec, Ev.spread d] ++ rest.2)

/-- The per-slot status arrays of the simultaneous batched paths
(`int ier_spreads[nth]` and `int abort[nth]`, zero-initialized). -/
structure SimulSt where
  ier_spreads : List Int
  abort : List Int
deriving DecidableEq

/-- One batch of parallel spreader calls in the simultaneous paths: slot
`i` handles transform `base + i`; a failing status is recorded into the
slot arrays.  The parallel-for is modelled as in-order iteration (its
iterations touch disjoint slots and slices). -/
def batchSpread (env : Env F) (base : Nat) : SimulSt → List Nat → SimulSt × List Ev
  | st, [] => (st, [])
  | st, i :: is =>
    let ier := env.spreadIdxIer (base + i)
    let step :=
      if ier > 0 then
        (SimulSt.mk (st.ier_spreads.set i ier) (st.abort.set i 1),
          [Ev.spread (base + i), Ev.record i ier])
      else (st, [Ev.spread (base + i)])
    let rest := batchSpread env base step.1 is
    (rest.1, step.2 ++ rest.2)

/-- The post-batch check loop of the simultaneous paths: walk the slots
in order; return the recorded status of the first aborted slot. -/
def abortCheck : List Int → List Int → Option Int
  | a :: arest, e :: erest => if a ≠ 0 then some e else abortCheck arest erest
  | _, _ => none

/-- The deconvolve-and-copy-out batch of `finufft2d1manysimul`. -/
def deconvEvsOut (base cnt : Nat) : List Ev :=
  (List.range cnt).map (fun i => Ev.deconvOut (base + i))

/-- The amplify-and-copy-in batch of `finufft2d2manysimul`. -/
def deconvEvsIn (base cnt : Nat) : List Ev :=
  (List.range cnt).map (fun i => Ev.deconvIn (base + i))

/-- The outer batch loop of `finufft2d1manysimul`: while `j*nth < ndata`,
spread a batch of `min(ndata - j*nth, nth)` transforms, consult the
abort slots, then run the many-FFT and the deconvolve batch.  Fuel-based
recursion; `none` models nontermination (never reached when
`nth ≥ 1`). -/
def simulOuter1 (env : Env F) (ndata : Int) (nth : Nat) :
    Nat → Nat → SimulSt → Option (Option Int × List Ev)
  | 0, _, _ => none
  | fuel + 1, j, st =>
    if ((j * nth : Nat) : Int) < ndata then
      let cnt := min (ndata - ((j * nth : Nat) : Int)).toNat nth
      let bres := batchSpread env (j * nth) st (List.range cnt)
      match abortCheck bres.1.abort bres.1.ier_spreads with
      | some code => some (some code, bres.2)
      | none =>
        match simulOuter1 env ndata nth fuel (j + 1) bres.1 with
        | none => none
        | some r => some (r.1, bres.2 ++ [Ev.fftExec] ++ deconvEvsOut (j * nth) cnt ++ r.2)
    else some (none, [])

/-- The outer batch loop of `finufft2d2manysimul`: amplify batch, FFT,
interpolation batch, then the abort-slot check. -/
def simulOuter2 (env : Env F) (ndata : Int) (nth : Nat) :
    Nat → Nat → SimulSt → Option (Option Int × List Ev)
  | 0, _, _ => none
  | fuel + 1, j, st =>
    if ((j * nth : Nat) : Int) < ndata then
      let cnt := min (ndata - ((j * nth : Nat) : Int)).toNat nth
      let bres := batchSpread env (j * nth) st (List.range cnt)
      let pre := deconvEvsIn (j * nth) cnt ++ [Ev.fftExec]
      match abortCheck bres.1.abort bres.1.ier_spreads with
      | some code => some (some code, pre ++ bres.2)
      | none =>
        match simulOuter2 env ndata nth fuel (j + 1) bres.1 with
        | none => none
        | some r => some (r.1, pre ++ bres.2 ++ r.2)
    else some (none, [])

/-- The shared prologue trace of the batched paths: kernel tables, the
working array, the FFT plan, and the sort-index buffer. -/
def manyPrologue (fftsign : Int) : List Ev :=
  [Ev.plannerCall, Ev.alloc Rsrc.fwkerhalf1, Ev.alloc Rsrc.fwkerhalf2,
    Ev.alloc Rsrc.fw, Ev.planCreate fftsign, Ev.alloc Rsrc.sortIndices]

/-- `finufft2d1manyseq`: sequential batched type-1 path. -/
def finufft2d1manyseq (env : Env F) (ndata : Int) (iflag : Int) (eps : F)
    (ms mt : Int) (opts : NufftOpts) : RM :=
  let ier_set := env.setupIer eps opts
  if ier_set ≠ 0 then ⟨ier_set, []⟩ else
  let nf1 := env.setNf ms
  let nf2 := env.setNf mt
  if nf1 * nf2 > env.maxNF then ⟨ERR_MAXNALLOC, [Ev.plannerCall]⟩ else
  let fftsign : Int := if 0 ≤ iflag then 1 else -1
  let t0 := manyPrologue fftsign
  if env.checkIer > 0 then ⟨env.checkIer, t0⟩ else
  let lres := seqLoop1 env (List.range ndata.toNat)
  match lres.1 with
  | some code => ⟨code, t0 ++ lres.2⟩
  | none => ⟨0, t0 ++ lres.2 ++ [Ev.planDestroy, Ev.free Rsrc.fw,
      Ev.free Rsrc.fwkerhalf1, Ev.free Rsrc.fwkerhalf2, Ev.free Rsrc.sortIndices]⟩

/-- `finufft2d2manyseq`: sequential batched type-2 path.  Note that the
source releases the buffers on the success path but never destroys the
FFT plan. -/
def finufft2d2manyseq (env : Env F) (ndata : Int) (iflag : Int) (eps : F)
    (ms mt : Int) (opts : NufftOpts) : RM :=
  let ier_set := env.setupIer eps opts
  if ier_set ≠ 0 then ⟨ier_set, []⟩ else
  let nf1 := env.setNf ms
  let nf2 := env.setNf mt
  if nf1 * nf2 > env.maxNF then ⟨ERR_MAXNALLOC, [Ev.plannerCall]⟩ else
  let fftsign : Int := if 0 ≤ iflag then 1 else -1
  let t0 := manyPrologue fftsign
  if env.checkIer > 0 then ⟨env.checkIer, t0⟩ else
  let lres := seqLoop2 env (List.range ndata.toNat)
  match lres.1 with
  | some code => ⟨code, t0 ++ lres.2⟩
  | none => ⟨0, t0 ++ lres.2 ++ [Ev.free Rsrc.fw, Ev.free Rsrc.fwkerhalf1,
      Ev.free Rsrc.fwkerhalf2, Ev.free Rsrc.sortIndices]⟩

/-- `finufft2d1manysimul`: simultaneous batched type-1 path.  `none`
models the nonterminating degenerate case `nth = 0`. -/
def finufft2d1manysimul (env : Env F) (ndata : Int) (iflag : Int) (eps : F)
    (ms mt : Int) (opts : NufftOpts) : Option RM :=
  let ier_set := env.setupIer eps opts
  if ier_set ≠ 0 then some ⟨ier_set, []⟩ else
  let nf1 := env.setNf ms
  let nf2 := env.setNf mt
  if nf1 * nf2 > env.maxNF then some ⟨ERR_MAXNALLOC, [Ev.plannerCall]⟩ else
  let fftsign : Int := if 0 ≤ iflag then 1 else -1
  let t0 := manyPrologue fftsign
  if env.checkIer > 0 then some ⟨env.checkIer, t0⟩ else
  let nth := env.nth.toNat
  let st0 := SimulSt.mk (List.replicate nth 0) (List.replicate nth 0)
  match simulOuter1 env ndata nth (ndata.toNat + 1) 0 st0 with
  | none => none
  | some (some code, tl) => some ⟨code, t0 ++ tl⟩
  | some (none, tl) => some ⟨0, t0 ++ tl ++ [Ev.planDestroy, Ev.free Rsrc.fw,
      Ev.free Rsrc.fwkerhalf1, Ev.free Rsrc.fwkerhalf2, Ev.free Rsrc.sortIndices]⟩

/-- `finufft2d2manysimul`: simultaneous batched type-2 path.  As in the
source, the success path frees the buffers but never destroys the FFT
plan. -/
def finufft2d2manysimul (env : Env F) (ndata : Int) (iflag : Int) (eps : F)
    (ms mt : Int) (opts : NufftOpts) : Option RM :=
  let ier_set := env.setupIer eps opts
  if ier_set ≠ 0 then some ⟨ier_set, []⟩ else
  let nf1 := env.setNf ms
  let nf2 := env.setNf mt
  if nf1 * nf2 > env.maxNF then some ⟨ERR_MAXNALLOC, [Ev.plannerCall]⟩ else
  let fftsign : Int := if 0 ≤ iflag then 1 else -1
  let t0 := manyPrologue fftsign
  if env.checkIer > 0 then some ⟨env.checkIer, t0⟩ else
  let nth := env.nth.toNat
  let st0 := SimulSt.mk (List.replicate nth 0) (List.replicate nth 0)
  match simulOuter2 env ndata nth (ndata.toNat + 1) 0 st0 with
  | none => none
  | some (some code, tl) => some ⟨code, t0 ++ tl⟩
  | some (none, tl) => some ⟨0, t0 ++ tl ++ [Ev.free Rsrc.fw,
      Ev.free Rsrc.fwkerhalf1, Ev.free Rsrc.fwkerhalf2, Ev.free Rsrc.sortIndices]⟩

/-- `finufft2d1many`: the batched type-1 entry point; validates `ndata`
and dispatches on `opts.many_seq`. -/
def finufft2d1many (env : Env F) (ndata : Int) (iflag : Int) (eps : F)
    (ms mt : Int) (opts : NufftOpts) : Option RM :=
  if ndata < 1 then some ⟨ERR_NDATA_NOTVALID, []⟩
  else if opts.many_seq ≠ 0 then some (finufft2d1manyseq env ndata iflag eps ms mt opts)
  else finufft2d1manysimul env ndata iflag eps ms mt opts

/-- `finufft2d2many`: the batched type-2 entry point; validates `ndata`
and dispatches on `opts.many_seq`. -/
def finufft2d2many (env : Env F) (ndata : Int) (iflag : Int) (eps : F)
    (ms mt : Int) (opts : NufftOpts) : Option RM :=
  if ndata < 1 then some ⟨ERR_NDATA_NOTVALID, []⟩
  else if opts.many_seq ≠ 0 then some (finufft2d2manyseq env ndata iflag eps ms mt opts)
  else finufft2d2manysimul env ndata iflag eps ms mt opts

end Models

/-- Whether an event allocates the resource `r` (plan creation counts as
the allocation of the plan; see `planCreates`). -/
def evIsAlloc (r : Rsrc) : Ev → Bool
  | Ev.alloc a => decide (a = r)
  | _ => false

/-- Whether an event releases the resource `r`. -/
def evIsFree (r : Rsrc) : Ev → Bool
  | Ev.free a => decide (a = r)
  | _ => false

/-- Whether an event is an FFT-plan creation. -/
def evIsPlanCreate : Ev → Bool
  | Ev.planCreate _ => true
  | _ => false

/-- Whether an event is an FFT-plan destruction. -/
def evIsPlanDestroy : Ev → Bool
  | Ev.planDestroy => true
  | _ => false

/-- Whether an event is an FFT execution. -/
def evIsFft : Ev → Bool
  | Ev.fftExec => true
  | _ => false

/-- Whether an event is any buffer allocation. -/
def evIsAnyAlloc : Ev → Bool
  | Ev.alloc _ => true
  | _ => false

/-- Number of allocations of `r` in a trace. -/
def allocsOf (tr : List Ev) (r : Rsrc) : Nat := tr.countP (evIsAlloc r)

/-- Number of releases of `r` in a trace. -/
def freesOf (tr : List Ev) (r : Rsrc) : Nat := tr.countP (evIsFree r)

/-- Number of FFT-plan creations in a trace. -/
def planCreates (tr : List Ev) : Nat := tr.countP evIsPlanCreate

/-- Number of FFT-plan destructions in a trace. -/
def planDestroys (tr : List Ev) : Nat := tr.countP evIsPlanDestroy

/-- Number of FFT executions in a trace. -/
def countFft (tr : List Ev) : Nat := tr.countP evIsFft

/-- Number of buffer allocations (of any resource) in a trace. -/
def countAllocs (tr : List Ev) : Nat := tr.countP evIsAnyAlloc

/-- The transform indices of the spreader calls in a trace, in order. -/
def spreadDs (tr : List Ev) : List Nat :=
  tr.filterMap (fun e => match e with | Ev.spread d => some d | _ => none)

/-- The transform indices written out by direction-1 deconvolve calls. -/
def deconvOutDs (tr : List Ev) : List Nat :=
  tr.filterMap (fun e => match e with | Ev.deconvOut d => some d | _ => none)

/-- The transform indices read in by direction-2 deconvolve calls. -/
def deconvInDs (tr : List Ev) : List Nat :=
  tr.filterMap (fun e => match e with | Ev.deconvIn d => some d | _ => none)

/-- The `(slot, status)` pairs recorded into the `ier_spreads`/`abort`
arrays during a trace. -/
def recordsOf (tr : List Ev) : List (Nat × Int) :=
  tr.filterMap (fun e => match e with | Ev.record i c => some (i, c) | _ => none)

/-- Default options: simultaneous batched discipline, CMCL mode order. -/
def optsD : NufftOpts := ⟨0, 0, 0, 0, 0, 0, 0⟩

/-- Options selecting the sequential batched discipline. -/
def optsSeq : NufftOpts := ⟨0, 0, 0, 0, 0, 0, 1⟩

/-- A concrete benign environment over the rationals: every helper
succeeds, the grids are small, the library exponential is the constant
one (which satisfies `cexp 0 = 1`). -/
def envQ : Env ℚ where
  maxNF := 1000
  nth := 2
  setupIer := fun _ _ => 0
  setNf := fun _ => 4
  setNhg := fun _ _ => (4, 1, 1)
  widcen := fun _ => (1, 0)
  fseries := fun _ => [1, 1, 1]
  phihat := fun _ => 1
  cexp := fun _ => (1, 0)
  spreadD1 := fun _ _ _ _ _ => (0, [])
  interpD2 := fun _ _ _ xs _ => (0, xs.map (fun _ => (0, 0)))
  deconv1 := fun _ _ _ _ _ _ _ _ => []
  deconv2 := fun _ _ _ _ _ _ _ _ => []
  fftRun := fun _ _ _ fw => fw
  checkIer := 0
  didSort := 1
  spreadIdxIer := fun _ => 0

/-- As `envQ`, but the interpolation (direction-2 spreader) reports the
out-of-range status, so the internal type-2 call of `finufft2d3`
fails. -/
def envT2Fail : Env ℚ :=
  { envQ with interpD2 := fun _ _ _ _ _ => (ERR_SPREAD_PTS_OUT_RANGE, []) }

/-- As `envQ`, but the direction-1 spreader reports the out-of-range
status. -/
def envSpFail : Env ℚ :=
  { envQ with spreadD1 := fun _ _ _ _ _ => (ERR_SPREAD_PTS_OUT_RANGE, []) }

/-- As `envQ`, but the per-transform spreader of the batched paths fails
on transform 0 with the out-of-range status. -/
def envIdxFail0 : Env ℚ :=
  { envQ with spreadIdxIer := fun d => if d = 0 then ERR_SPREAD_PTS_OUT_RANGE else 0 }

section Lemmas

variable {F : Type} [Field F] [DecidableEq F]
variable {α β : Type}

omit [DecidableEq F] in
theorem cmul_one_right (z : F × F) : cmul z (1, 0) = z := by
  simp [cmul]

omit [DecidableEq F] in
theorem cmul_zero_right (z : F × F) : cmul z ((0 : F), (0 : F)) = (0, 0) := by
  simp [cmul]

theorem cmapIdxGo_congr (f g : Nat → α → β) (l : List α) :
    ∀ n : Nat, (∀ k a, n ≤ k → k < n + l.length → f k a = g k a) →
      cmapIdxGo f n l = cmapIdxGo g n l := by
  induction l with
  | nil => intro n _; rfl
  | cons a l ih =>
    intro n h
    simp only [cmapIdxGo]
    rw [h n a le_rfl (by simp), ih (n + 1) (fun k b h1 h2 => h k b (by omega)
      (by simp only [List.length_cons]; omega))]

theorem cmapIdx_congr (f g : Nat → α → β) (l : List α)
    (h : ∀ k a, k < l.length → f k a = g k a) : cmapIdx f l = cmapIdx g l :=
  cmapIdxGo_congr f g l 0 (fun k a _ hk => h k a (by omega))

theorem cmapIdxGo_id (l : List α) : ∀ n : Nat, cmapIdxGo (fun _ a => a) n l = l := by
  induction l with
  | nil => intro n; rfl
  | cons a l ih => intro n; simp only [cmapIdxGo]; rw [ih (n + 1)]

theorem cmapIdx_eq_self (f : Nat → α → α) (l : List α)
    (h : ∀ k a, k < l.length → f k a = a) : cmapIdx f l = l :=
  (cmapIdx_congr f (fun _ a => a) l h).trans (cmapIdxGo_id l 0)

theorem getD_map_of_lt (f : α → β) :
    ∀ (l : List α) (k : Nat), k < l.length → ∀ (d : β) (d0 : α),
      (l.map f).getD k d = f (l.getD k d0) := by
  intro l
  induction l with
  | nil => intro k hk; simp at hk
  | cons a l ih =>
    intro k hk d d0
    cases k with
    | zero => simp [List.getD]
    | succ m =>
      simp only [List.map_cons, List.getD_cons_succ]
      exact ih m (by simp only [List.length_cons] at hk; omega) d d0

theorem prephaseLoop_eq_all (env : Env F) (ima : F × F) (D1 D2 : F)
    (xj yj : List F) (cj : List (F × F)) (hcexp : env.cexp 0 = (1, 0)) :
    prephaseLoop env ima D1 D2 xj yj cj = prephaseAll env ima D1 D2 xj yj cj := by
  unfold prephaseLoop
  split
  · rfl
  case isFalse h =>
    have h1 : D1 = 0 := by by_contra hh; exact h (Or.inl hh)
    have h2 : D2 = 0 := by by_contra hh; exact h (Or.inr hh)
    subst h1; subst h2
    symm
    apply cmapIdx_eq_self
    intro k a _
    simp [rc, cmul, hcexp]

theorem postdeconvLoop_eq_all (env : Env F) (ima : F × F) (C1 D1 C2 D2 : F)
    (s t fkker1 fkker2 : List F) (fk : List (F × F))
    (hcexp : env.cexp 0 = (1, 0)) :
    postdeconvLoop env ima C1 D1 C2 D2 s t fkker1 fkker2 fk =
      postdeconvAll env ima C1 D1 C2 D2 s t fkker1 fkker2 fk := by
  unfold postdeconvLoop
  split
  · rfl
  case isFalse h =>
    have h1 : C1 = 0 := by by_contra hh; exact h (Or.inl hh)
    have h2 : C2 = 0 := by by_contra hh; exact h (Or.inr hh)
    subst h1; subst h2
    apply cmapIdx_congr
    intro k a _
    simp [rc, cmul, hcexp]

theorem simulOuter1_total (env : Env F) (ndata : Int) (nth : Nat) (hnth : 1 ≤ nth) :
    ∀ (fuel j : Nat) (st : SimulSt),
      ndata < ((j * nth : Nat) : Int) + (fuel : Int) → 1 ≤ fuel →
      ∃ r, simulOuter1 env ndata nth fuel j st = some r := by
  intro fuel
  induction fuel with
  | zero => intro j st _ h1; omega
  | succ n ih =>
    intro j st hlt _
    simp only [simulOuter1]
    split
    case isTrue hc =>
      cases habr : abortCheck
          (batchSpread env (j * nth) st
            (List.range (min (ndata - ((j * nth : Nat) : Int)).toNat nth))).1.abort
          (batchSpread env (j * nth) st
            (List.range (min (ndata - ((j * nth : Nat) : Int)).toNat nth))).1.ier_spreads with
      | some code => exact ⟨_, rfl⟩
      | none =>
        have hmul : (j + 1) * nth = j * nth + nth := by ring
        obtain ⟨r0, hr0⟩ := ih (j + 1)
          (batchSpread env (j * nth) st
            (List.range (min (ndata - ((j * nth : Nat) : Int)).toNat nth))).1
          (by rw [hmul]; push_cast; push_cast at hlt hc; omega) (by push_cast at hlt hc; omega)
        rw [hr0]
        exact ⟨_, rfl⟩
    case isFalse => exact ⟨_, rfl⟩

theorem simulOuter2_total (env : Env F) (ndata : Int) (nth : Nat) (hnth : 1 ≤ nth) :
    ∀ (fuel j : Nat) (st : SimulSt),
      ndata < ((j * nth : Nat) : Int) + (fuel : Int) → 1 ≤ fuel →
      ∃ r, simulOuter2 env ndata nth fuel j st = some r := by
  intro fuel
  induction fuel with
  | zero => intro j st _ h1; omega
  | succ n ih =>
    intro j st hlt _
    simp only [simulOuter2]
    split
    case isTrue hc =>
      cases habr : abortCheck
          (batchSpread env (j * nth) st
            (List.range (min (ndata - ((j * nth : Nat) : Int)).toNat nth))).1.abort
          (batchSpread env (j * nth) st
            (List.range (min (ndata - ((j * nth : Nat) : Int)).toNat nth))).1.ier_spreads with
      | some code => exact ⟨_, rfl⟩
      | none =>
        have hmul : (j + 1) * nth = j * nth + nth := by ring
        obtain ⟨r0, hr0⟩ := ih (j + 1)
          (batchSpread env (j * nth) st
            (List.range (min (ndata - ((j * nth : Nat) : Int)).toNat nth))).1
          (by rw [hmul]; push_cast; push_cast at hlt hc; omega) (by push_cast at hlt hc; omega)
        rw [hr0]
        exact ⟨_, rfl⟩
    case isFalse => exact ⟨_, rfl⟩

end Lemmas

section BatchLemmas

variable {F : Type} [Field F] [DecidableEq F]

theorem spreadDs_append (a b : List Ev) : spreadDs (a ++ b) = spreadDs a ++ spreadDs b := by
  simp [spreadDs]

theorem deconvOutDs_append (a b : List Ev) :
    deconvOutDs (a ++ b) = deconvOutDs a ++ deconvOutDs b := by
  simp [deconvOutDs]

theorem deconvInDs_append (a b : List Ev) :
    deconvInDs (a ++ b) = deconvInDs a ++ deconvInDs b := by
  simp [deconvInDs]

theorem recordsOf_append (a b : List Ev) :
    recordsOf (a ++ b) = recordsOf a ++ recordsOf b := by
  simp [recordsOf]

theorem filterMap_map_none {A B C : Type} (g : A → B) (f : B → Option C)
    (h : ∀ a, f (g a) = none) : ∀ l : List A, (l.map g).filterMap f = [] := by
  intro l
  induction l with
  | nil => rfl
  | cons a l ih => simp [List.filterMap_cons, h, ih]

theorem filterMap_map_some {A B C : Type} (g : A → B) (f : B → Option C) (g2 : A → C)
    (h : ∀ a, f (g a) = some (g2 a)) : ∀ l : List A, (l.map g).filterMap f = l.map g2 := by
  intro l
  induction l with
  | nil => rfl
  | cons a l ih => simp [List.filterMap_cons, h, ih]

theorem spreadDs_spread_map (base : Nat) (l : List Nat) :
    spreadDs (l.map (fun i => Ev.spread (base + i))) = l.map (fun i => base + i) := by
  simp only [spreadDs]
  apply filterMap_map_some
  intro a
  rfl

theorem deconvOutDs_spread_map (base : Nat) (l : List Nat) :
    deconvOutDs (l.map (fun i => Ev.spread (base + i))) = [] := by
  simp only [deconvOutDs]
  exact filterMap_map_none _ _ (fun a => rfl) l

theorem recordsOf_spread_map (base : Nat) (l : List Nat) :
    recordsOf (l.map (fun i => Ev.spread (base + i))) = [] := by
  simp only [recordsOf]
  exact filterMap_map_none _ _ (fun a => rfl) l

theorem spreadDs_deconvEvsOut (base cnt : Nat) : spreadDs (deconvEvsOut base cnt) = [] := by
  simp only [spreadDs, deconvEvsOut]
  exact filterMap_map_none _ _ (fun a => rfl) _

theorem deconvOutDs_deconvEvsOut (base cnt : Nat) :
    deconvOutDs (deconvEvsOut base cnt) = List.range' base cnt := by
  simp only [deconvOutDs, deconvEvsOut]
  rw [List.range'_eq_map_range]
  apply filterMap_map_some
  intro a
  rfl

theorem recordsOf_deconvEvsOut (base cnt : Nat) : recordsOf (deconvEvsOut base cnt) = [] := by
  simp only [recordsOf, deconvEvsOut]
  exact filterMap_map_none _ _ (fun a => rfl) _

theorem spreadDs_deconvEvsIn (base cnt : Nat) : spreadDs (deconvEvsIn base cnt) = [] := by
  simp only [spreadDs, deconvEvsIn]
  exact filterMap_map_none _ _ (fun a => rfl) _

theorem deconvInDs_deconvEvsIn (base cnt : Nat) :
    deconvInDs (deconvEvsIn base cnt) = List.range' base cnt := by
  simp only [deconvInDs, deconvEvsIn]
  rw [List.range'_eq_map_range]
  apply filterMap_map_some
  intro a
  rfl

theorem recordsOf_deconvEvsIn (base cnt : Nat) : recordsOf (deconvEvsIn base cnt) = [] := by
  simp only [recordsOf, deconvEvsIn]
  exact filterMap_map_none _ _ (fun a => rfl) _

theorem batchSpread_ok (env : Env F) (base : Nat) :
    ∀ (is : List Nat) (st : SimulSt),
      (∀ i ∈ is, env.spreadIdxIer (base + i) ≤ 0) →
      batchSpread env base st is = (st, is.map (fun i => Ev.spread (base + i))) := by
  intro is
  induction is with
  | nil => intro st _; rfl
  | cons i is ih =>
    intro st h
    simp only [batchSpread]
    rw [if_neg (not_lt.mpr (h i (by simp)))]
    rw [ih st (fun j hj => h j (by simp [hj]))]
    simp

theorem abortCheck_zeros : ∀ (n : Nat) (e : List Int),
    abortCheck (List.replicate n 0) e = none := by
  intro n
  induction n with
  | zero => intro e; rfl
  | succ m ih =>
    intro e
    cases e with
    | nil => rfl
    | cons a arest =>
      simp only [List.replicate_succ, abortCheck]
      rw [if_neg (by simp)]
      exact ih arest

theorem simulOuter1_noFail (env : Env F) (ndata : Int) (nth : Nat) (hnth : 1 ≤ nth)
    (hok : ∀ d, env.spreadIdxIer d ≤ 0) :
    ∀ (fuel j : Nat), ndata < ((j * nth : Nat) : Int) + (fuel : Int) → 1 ≤ fuel →
      ∃ tl, simulOuter1 env ndata nth fuel j
          (SimulSt.mk (List.replicate nth 0) (List.replicate nth 0)) = some (none, tl) ∧
        spreadDs tl = List.range' (j * nth) (ndata.toNat - j * nth) ∧
        deconvOutDs tl = List.range' (j * nth) (ndata.toNat - j * nth) := by
  intro fuel
  induction fuel with
  | zero => intro j _ h1; omega
  | succ n ih =>
    intro j hlt _
    simp only [simulOuter1]
    split
    case isTrue hc =>
      rw [batchSpread_ok env (j * nth)
        (List.range (min (ndata - ((j * nth : Nat) : Int)).toNat nth))
        (SimulSt.mk (List.replicate nth 0) (List.replicate nth 0)) (fun i _ => hok _)]
      rw [abortCheck_zeros]
      have hmul : (j + 1) * nth = j * nth + nth := by ring
      obtain ⟨tl1, htl1, hsp1, hdc1⟩ := ih (j + 1) (by rw [hmul]; push_cast; push_cast at hlt hc; omega)
        (by push_cast at hlt hc; omega)
      rw [htl1]
      refine ⟨_, rfl, ?_, ?_⟩
      · rw [spreadDs_append, spreadDs_append, spreadDs_append, hsp1,
          spreadDs_spread_map, spreadDs_deconvEvsOut]
        have hspread : spreadDs [Ev.fftExec] = [] := rfl
        rw [hspread]
        rw [show (List.range (min (ndata - ((j * nth : Nat) : Int)).toNat nth)).map
            (fun i => j * nth + i) = List.range' (j * nth)
              (min (ndata - ((j * nth : Nat) : Int)).toNat nth) from
          (List.range'_eq_map_range (j * nth) _).symm]
        have hcnt : min (ndata - ((j * nth : Nat) : Int)).toNat nth =
            min (ndata.toNat - j * nth) nth := by omega
        rw [hcnt, hmul] at *
        rcases le_or_lt nth (ndata.toNat - j * nth) with hle | hgt
        · rw [min_eq_right hle]
          rw [show ndata.toNat - (j * nth + nth) = (ndata.toNat - j * nth) - nth by omega]
          rw [List.append_nil, List.append_nil]
          rw [List.range'_append_1]
          congr 1
          omega
        · rw [min_eq_left (le_of_lt hgt)]
          have hz2 : ndata.toNat - (j * nth + nth) = 0 := by omega
          rw [hz2]
          simp
      · rw [deconvOutDs_append, deconvOutDs_append, deconvOutDs_append, hdc1,
          deconvOutDs_spread_map, deconvOutDs_deconvEvsOut]
        have hfft : deconvOutDs [Ev.fftExec] = [] := rfl
        rw [hfft]
        have hcnt : min (ndata - ((j * nth : Nat) : Int)).toNat nth =
            min (ndata.toNat - j * nth) nth := by omega
        rw [hcnt, hmul] at *
        rcases le_or_lt nth (ndata.toNat - j * nth) with hle | hgt
        · rw [min_eq_right hle]
          rw [show ndata.toNat - (j * nth + nth) = (ndata.toNat - j * nth) - nth by omega]
          simp only [List.nil_append]
          rw [List.range'_append_1]
          congr 1
          omega
        · rw [min_eq_left (le_of_lt hgt)]
          have hz2 : ndata.toNat - (j * nth + nth) = 0 := by omega
          rw [hz2]
          simp
    case isFalse hc =>
      have hz0 : ndata.toNat - j * nth = 0 := by push_cast at hc; omega
      refine ⟨[], rfl, ?_, ?_⟩ <;> simp [spreadDs, deconvOutDs, hz0]

theorem simulOuter2_noFail (env : Env F) (ndata : Int) (nth : Nat) (hnth : 1 ≤ nth)
    (hok : ∀ d, env.spreadIdxIer d ≤ 0) :
    ∀ (fuel j : Nat), ndata < ((j * nth : Nat) : Int) + (fuel : Int) → 1 ≤ fuel →
      ∃ tl, simulOuter2 env ndata nth fuel j
          (SimulSt.mk (List.replicate nth 0) (List.replicate nth 0)) = some (none, tl) ∧
        spreadDs tl = List.range' (j * nth) (ndata.toNat - j * nth) ∧
        deconvInDs tl = List.range' (j * nth) (ndata.toNat - j * nth) := by
  intro fuel
  induction fuel with
  | zero => intro j _ h1; omega
  | succ n ih =>
    intro j hlt _
    simp only [simulOuter2]
    split
    case isTrue hc =>
      rw [batchSpread_ok env (j * nth)
        (List.range (min (ndata - ((j * nth : Nat) : Int)).toNat nth))
        (SimulSt.mk (List.replicate nth 0) (List.replicate nth 0)) (fun i _ => hok _)]
      rw [abortCheck_zeros]
      have hmul : (j + 1) * nth = j * nth + nth := by ring
      obtain ⟨tl1, htl1, hsp1, hdc1⟩ := ih (j + 1) (by rw [hmul]; push_cast; push_cast at hlt hc; omega)
        (by push_cast at hlt hc; omega)
      rw [htl1]
      refine ⟨_, rfl, ?_, ?_⟩
      · rw [spreadDs_append, spreadDs_append, spreadDs_append, hsp1,
          spreadDs_spread_map, spreadDs_deconvEvsIn]
        have hspread : spreadDs [Ev.fftExec] = [] := rfl
        rw [hspread]
        rw [show (List.range (min (ndata - ((j * nth : Nat) : Int)).toNat nth)).map
            (fun i => j * nth + i) = List.range' (j * nth)
              (min (ndata - ((j * nth : Nat) : Int)).toNat nth) from
          (List.range'_eq_map_range (j * nth) _).symm]
        have hcnt : min (ndata - ((j * nth : Nat) : Int)).toNat nth =
            min (ndata.toNat - j * nth) nth := by omega
        rw [hcnt, hmul] at *
        rcases le_or_lt nth (ndata.toNat - j * nth) with hle | hgt
        · rw [min_eq_right hle]
          rw [show ndata.toNat - (j * nth + nth) = (ndata.toNat - j * nth) - nth by omega]
          simp only [List.nil_append, List.append_nil]
          rw [List.range'_append_1]
          congr 1
          omega
        · rw [min_eq_left (le_of_lt hgt)]
          have hz2 : ndata.toNat - (j * nth + nth) = 0 := by omega
          rw [hz2]
          simp
      · rw [deconvInDs_append, deconvInDs_append, deconvInDs_append, hdc1,
          deconvInDs_deconvEvsIn]
        have hsm : deconvInDs ((List.range (min (ndata - ((j * nth : Nat) : Int)).toNat
            nth)).map (fun i => Ev.spread (j * nth + i))) = [] := by
          simp only [deconvInDs]
          apply filterMap_map_none
          intro a
          rfl
        rw [hsm]
        have hfft : deconvInDs [Ev.fftExec] = [] := rfl
        rw [hfft]
        have hcnt : min (ndata - ((j * nth : Nat) : Int)).toNat nth =
            min (ndata.toNat - j * nth) nth := by omega
        rw [hcnt, hmul] at *
        rcases le_or_lt nth (ndata.toNat - j * nth) with hle | hgt
        · rw [min_eq_right hle]
          rw [show ndata.toNat - (j * nth + nth) = (ndata.toNat - j * nth) - nth by omega]
          simp only [List.nil_append, List.append_nil]
          rw [List.range'_append_1]
          congr 1
          omega
        · rw [min_eq_left (le_of_lt hgt)]
          have hz2 : ndata.toNat - (j * nth + nth) = 0 := by omega
          rw [hz2]
          simp
    case isFalse hc =>
      have hz0 : ndata.toNat - j * nth = 0 := by push_cast at hc; omega
      refine ⟨[], rfl, ?_, ?_⟩ <;> simp [spreadDs, deconvInDs, hz0]

theorem countFft_append (a b : List Ev) : countFft (a ++ b) = countFft a + countFft b := by
  simp [countFft]

theorem countP_map_false {A B : Type} (p : B → Bool) (g : A → B)
    (h : ∀ a, p (g a) = false) : ∀ l : List A, (l.map g).countP p = 0 := by
  intro l
  induction l with
  | nil => rfl
  | cons a l ih => simp [List.countP_cons, h, ih]

theorem countFft_spread_map (base : Nat) (l : List Nat) :
    countFft (l.map (fun i => Ev.spread (base + i))) = 0 :=
  countP_map_false _ _ (fun _ => rfl) l

theorem countFft_deconvEvsOut (base cnt : Nat) : countFft (deconvEvsOut base cnt) = 0 :=
  countP_map_false _ _ (fun _ => rfl) _

theorem countFft_deconvEvsIn (base cnt : Nat) : countFft (deconvEvsIn base cnt) = 0 :=
  countP_map_false _ _ (fun _ => rfl) _

theorem batchSpread_append (env : Env F) (base : Nat) :
    ∀ (l1 l2 : List Nat) (st : SimulSt),
      batchSpread env base st (l1 ++ l2) =
        ((batchSpread env base (batchSpread env base st l1).1 l2).1,
          (batchSpread env base st l1).2 ++
            (batchSpread env base (batchSpread env base st l1).1 l2).2) := by
  intro l1
  induction l1 with
  | nil => intro l2 st; rfl
  | cons i l1 ih =>
    intro l2 st
    simp only [List.cons_append, batchSpread, List.append_eq]
    rw [ih l2]
    simp

theorem batchSpread_singleton (env : Env F) (base i : Nat) (st : SimulSt) :
    batchSpread env base st [i] =
      (if 0 < env.spreadIdxIer (base + i)
       then (SimulSt.mk (st.ier_spreads.set i (env.spreadIdxIer (base + i)))
          (st.abort.set i 1),
          [Ev.spread (base + i), Ev.record i (env.spreadIdxIer (base + i))])
       else (st, [Ev.spread (base + i)])) := by
  simp only [batchSpread]
  split <;> rfl

theorem set_map_range_eq {C : Type} (f g : Nat → C) (n i : Nat) (v : C)
    (h : ∀ k, k < n → g k = if k = i then v else f k) :
    ((List.range n).map f).set i v = (List.range n).map g := by
  apply List.ext_getElem
  · simp
  · intro k h1 h2
    simp only [List.getElem_set, List.getElem_map, List.getElem_range]
    have hk : k < n := by simpa using h2
    rw [h k hk]
    by_cases hik : i = k
    · subst hik; simp
    · rw [if_neg hik, if_neg (fun hh => hik hh.symm)]

theorem batchSpread_zeros_spec (env : Env F) (base nth : Nat) :
    ∀ cnt : Nat, cnt ≤ nth →
      batchSpread env base (SimulSt.mk (List.replicate nth 0) (List.replicate nth 0))
          (List.range cnt) =
        (SimulSt.mk
          ((List.range nth).map (fun i =>
            if i < cnt ∧ 0 < env.spreadIdxIer (base + i)
            then env.spreadIdxIer (base + i) else 0))
          ((List.range nth).map (fun i =>
            if i < cnt ∧ 0 < env.spreadIdxIer (base + i) then 1 else 0)),
          (List.range cnt).flatMap (fun i =>
            if 0 < env.spreadIdxIer (base + i)
            then [Ev.spread (base + i), Ev.record i (env.spreadIdxIer (base + i))]
            else [Ev.spread (base + i)])) := by
  intro cnt
  induction cnt with
  | zero =>
    intro _
    have hA : (List.range nth).map (fun i =>
        if i < 0 ∧ 0 < env.spreadIdxIer (base + i)
        then env.spreadIdxIer (base + i) else (0 : Int)) =
        (List.range nth).map (fun _ => (0 : Int)) :=
      List.map_congr_left (fun a _ => by simp)
    have hB : (List.range nth).map (fun i =>
        if i < 0 ∧ 0 < env.spreadIdxIer (base + i) then (1 : Int) else 0) =
        (List.range nth).map (fun _ => (0 : Int)) :=
      List.map_congr_left (fun a _ => by simp)
    rw [hA, hB, List.map_const', List.length_range]
    rfl
  | succ c ih =>
    intro hc1
    rw [List.range_succ, batchSpread_append, ih (by omega), batchSpread_singleton]
    by_cases hP : 0 < env.spreadIdxIer (base + c)
    · rw [if_pos hP]
      simp only [Prod.mk.injEq, SimulSt.mk.injEq]
      refine ⟨⟨?_, ?_⟩, ?_⟩
      · apply set_map_range_eq
        intro k _
        by_cases hkc : k = c
        · subst hkc
          rw [if_pos rfl, if_pos ⟨Nat.lt_succ_self k, hP⟩]
        · rw [if_neg hkc]
          by_cases hk2 : 0 < env.spreadIdxIer (base + k)
          · by_cases hk3 : k < c
            · rw [if_pos ⟨by omega, hk2⟩, if_pos ⟨hk3, hk2⟩]
            · rw [if_neg (fun hh => absurd hh.1 (by omega)),
                if_neg (fun hh => absurd hh.1 (by omega))]
          · rw [if_neg (fun hh => hk2 hh.2), if_neg (fun hh => hk2 hh.2)]
      · apply set_map_range_eq
        intro k _
        by_cases hkc : k = c
        · subst hkc
          rw [if_pos rfl, if_pos ⟨Nat.lt_succ_self k, hP⟩]
        · rw [if_neg hkc]
          by_cases hk2 : 0 < env.spreadIdxIer (base + k)
          · by_cases hk3 : k < c
            · rw [if_pos ⟨by omega, hk2⟩, if_pos ⟨hk3, hk2⟩]
            · rw [if_neg (fun hh => absurd hh.1 (by omega)),
                if_neg (fun hh => absurd hh.1 (by omega))]
          · rw [if_neg (fun hh => hk2 hh.2), if_neg (fun hh => hk2 hh.2)]
      · rw [List.flatMap_append]
        simp [hP]
    · rw [if_neg hP]
      simp only [Prod.mk.injEq, SimulSt.mk.injEq]
      refine ⟨⟨?_, ?_⟩, ?_⟩
      · apply List.map_congr_left
        intro a _
        by_cases hac : a = c
        · subst hac
          rw [if_neg (fun hh => hP hh.2), if_neg (fun hh => hP hh.2)]
        · by_cases ha2 : 0 < env.spreadIdxIer (base + a)
          · by_cases ha3 : a < c
            · rw [if_pos ⟨ha3, ha2⟩, if_pos ⟨by omega, ha2⟩]
            · rw [if_neg (fun hh => absurd hh.1 (by omega)),
                if_neg (fun hh => absurd hh.1 (by omega))]
          · rw [if_neg (fun hh => ha2 hh.2), if_neg (fun hh => ha2 hh.2)]
      · apply List.map_congr_left
        intro a _
        by_cases hac : a = c
        · subst hac
          rw [if_neg (fun hh => hP hh.2), if_neg (fun hh => hP hh.2)]
        · by_cases ha2 : 0 < env.spreadIdxIer (base + a)
          · by_cases ha3 : a < c
            · rw [if_pos ⟨ha3, ha2⟩, if_pos ⟨by omega, ha2⟩]
            · rw [if_neg (fun hh => absurd hh.1 (by omega)),
                if_neg (fun hh => absurd hh.1 (by omega))]
          · rw [if_neg (fun hh => ha2 hh.2), if_neg (fun hh => ha2 hh.2)]
      · rw [List.flatMap_append]
        simp [hP]

theorem abortCheck_map_first (fA fE : Nat → Int) :
    ∀ (n s i0 : Nat), s ≤ i0 → i0 < s + n → fA i0 ≠ 0 →
      (∀ i, s ≤ i → i < i0 → fA i = 0) →
      abortCheck ((List.range' s n).map fA) ((List.range' s n).map fE) = some (fE i0) := by
  intro n
  induction n with
  | zero => intro s i0 h1 h2 _ _; omega
  | succ m ih =>
    intro s i0 h1 h2 h3 h4
    rw [List.range'_succ]
    simp only [List.map_cons, abortCheck]
    rcases eq_or_lt_of_le h1 with heq | hlt
    · subst heq
      rw [if_pos h3]
    · rw [if_neg (by simp [h4 s le_rfl hlt])]
      exact ih (s + 1) i0 (by omega) (by omega) h3 (fun i hi1 hi2 => h4 i (by omega) hi2)

theorem spreadDs_flatMap_batch (env : Env F) (base : Nat) :
    ∀ l : List Nat, spreadDs (l.flatMap (fun i =>
      if 0 < env.spreadIdxIer (base + i)
      then [Ev.spread (base + i), Ev.record i (env.spreadIdxIer (base + i))]
      else [Ev.spread (base + i)])) = l.map (fun i => base + i) := by
  intro l
  induction l with
  | nil => rfl
  | cons a l ih =>
    rw [List.flatMap_cons, spreadDs_append, ih]
    split <;> rfl

theorem deconvOutDs_flatMap_batch (env : Env F) (base : Nat) :
    ∀ l : List Nat, deconvOutDs (l.flatMap (fun i =>
      if 0 < env.spreadIdxIer (base + i)
      then [Ev.spread (base + i), Ev.record i (env.spreadIdxIer (base + i))]
      else [Ev.spread (base + i)])) = [] := by
  intro l
  induction l with
  | nil => rfl
  | cons a l ih =>
    rw [List.flatMap_cons, deconvOutDs_append, ih, List.append_nil]
    split <;> rfl

theorem deconvInDs_flatMap_batch (env : Env F) (base : Nat) :
    ∀ l : List Nat, deconvInDs (l.flatMap (fun i =>
      if 0 < env.spreadIdxIer (base + i)
      then [Ev.spread (base + i), Ev.record i (env.spreadIdxIer (base + i))]
      else [Ev.spread (base + i)])) = [] := by
  intro l
  induction l with
  | nil => rfl
  | cons a l ih =>
    rw [List.flatMap_cons, deconvInDs_append, ih, List.append_nil]
    split <;> rfl

theorem countFft_flatMap_batch (env : Env F) (base : Nat) :
    ∀ l : List Nat, countFft (l.flatMap (fun i =>
      if 0 < env.spreadIdxIer (base + i)
      then [Ev.spread (base + i), Ev.record i (env.spreadIdxIer (base + i))]
      else [Ev.spread (base + i)])) = 0 := by
  intro l
  induction l with
  | nil => rfl
  | cons a l ih =>
    rw [List.flatMap_cons, countFft_append, ih]
    split <;> rfl

theorem record_mem_flatMap_batch (env : Env F) (base : Nat) (i0 : Nat)
    (hfail : 0 < env.spreadIdxIer (base + i0)) :
    ∀ l : List Nat, i0 ∈ l →
      (i0, env.spreadIdxIer (base + i0)) ∈ recordsOf (l.flatMap (fun i =>
        if 0 < env.spreadIdxIer (base + i)
        then [Ev.spread (base + i), Ev.record i (env.spreadIdxIer (base + i))]
        else [Ev.spread (base + i)])) := by
  intro l
  induction l with
  | nil => intro h; simp at h
  | cons a l ih =>
    intro h
    rw [List.flatMap_cons, recordsOf_append]
    rcases List.mem_cons.mp h with heq | hmem
    · subst heq
      apply List.mem_append_left
      rw [if_pos hfail]
      simp [recordsOf]
    · exact List.mem_append_right _ (ih hmem)

theorem spreadDs_flatMap_triple :
    ∀ l : List Nat, spreadDs (l.flatMap
      (fun d => [Ev.spread d, Ev.fftExec, Ev.deconvOut d])) = l := by
  intro l
  induction l with
  | nil => rfl
  | cons a l ih => rw [List.flatMap_cons, spreadDs_append, ih]; rfl

theorem deconvOutDs_flatMap_triple :
    ∀ l : List Nat, deconvOutDs (l.flatMap
      (fun d => [Ev.spread d, Ev.fftExec, Ev.deconvOut d])) = l := by
  intro l
  induction l with
  | nil => rfl
  | cons a l ih => rw [List.flatMap_cons, deconvOutDs_append, ih]; rfl

theorem countFft_flatMap_triple :
    ∀ l : List Nat, countFft (l.flatMap
      (fun d => [Ev.spread d, Ev.fftExec, Ev.deconvOut d])) = l.length := by
  intro l
  induction l with
  | nil => rfl
  | cons a l ih =>
    rw [List.flatMap_cons, countFft_append, ih,
      show countFft [Ev.spread a, Ev.fftExec, Ev.deconvOut a] = 1 from rfl]
    simp only [List.length_cons]
    omega

theorem recordsOf_flatMap_triple :
    ∀ l : List Nat, recordsOf (l.flatMap
      (fun d => [Ev.spread d, Ev.fftExec, Ev.deconvOut d])) = [] := by
  intro l
  induction l with
  | nil => rfl
  | cons a l ih => rw [List.flatMap_cons, recordsOf_append, ih]; rfl

theorem seqLoop1_firstFail (env : Env F) :
    ∀ (n s i0 : Nat), s ≤ i0 → i0 < s + n → 0 < env.spreadIdxIer i0 →
      (∀ d, s ≤ d → d < i0 → env.spreadIdxIer d ≤ 0) →
      seqLoop1 env (List.range' s n) =
        (some (env.spreadIdxIer i0),
          (List.range' s (i0 - s)).flatMap
            (fun d => [Ev.spread d, Ev.fftExec, Ev.deconvOut d]) ++ [Ev.spread i0]) := by
  intro n
  induction n with
  | zero => intro s i0 h1 h2 _ _; omega
  | succ m ih =>
    intro s i0 h1 h2 h3 h4
    rw [List.range'_succ]
    simp only [seqLoop1]
    rcases eq_or_lt_of_le h1 with heq | hlt
    · subst heq
      rw [if_pos h3]
      simp
    · rw [if_neg (not_lt.mpr (h4 s le_rfl hlt))]
      rw [ih (s + 1) i0 (by omega) (by omega) h3 (fun d hd1 hd2 => h4 d (by omega) hd2)]
      rw [show i0 - s = (i0 - (s + 1)) + 1 from by omega, List.range'_succ,
        List.flatMap_cons]
      simp

theorem simulOuter1_firstFail (env : Env F) (ndata : Int) (nth : Nat) (hnth : 1 ≤ nth)
    (j0 i0 : Nat)
    (hi0 : i0 < min (ndata.toNat - j0 * nth) nth)
    (hfail : 0 < env.spreadIdxIer (j0 * nth + i0))
    (hbef : ∀ d : Nat, d < j0 * nth + i0 → env.spreadIdxIer d ≤ 0) :
    ∀ (fuel j : Nat), j ≤ j0 → ndata < ((j * nth : Nat) : Int) + (fuel : Int) → 1 ≤ fuel →
      ∃ tl, simulOuter1 env ndata nth fuel j
          (SimulSt.mk (List.replicate nth 0) (List.replicate nth 0)) =
            some (some (env.spreadIdxIer (j0 * nth + i0)), tl) ∧
        spreadDs tl = List.range' (j * nth)
          (j0 * nth + min (ndata.toNat - j0 * nth) nth - j * nth) ∧
        deconvOutDs tl = List.range' (j * nth) (j0 * nth - j * nth) ∧
        countFft tl = j0 - j ∧
        (i0, env.spreadIdxIer (j0 * nth + i0)) ∈ recordsOf tl := by
  have hd0n : j0 * nth + i0 < ndata.toNat := by omega
  intro fuel
  induction fuel with
  | zero => intro j _ _ h1; omega
  | succ n ih =>
    intro j hj hlt _
    have hjle : j * nth ≤ j0 * nth := Nat.mul_le_mul hj (le_refl nth)
    have hcond : ((j * nth : Nat) : Int) < ndata := by omega
    simp only [simulOuter1]
    rw [if_pos hcond]
    rcases Nat.lt_or_ge j j0 with hjlt | hjge
    · have hj1le : (j + 1) * nth ≤ j0 * nth := Nat.mul_le_mul (by omega) (le_refl nth)
      have hmul : (j + 1) * nth = j * nth + nth := by ring
      have hcnt : min (ndata - ((j * nth : Nat) : Int)).toNat nth = nth := by omega
      rw [batchSpread_ok env (j * nth) _ _ (fun i hi => hbef _ (by
        rw [hcnt] at hi
        have hi2 : i < nth := List.mem_range.mp hi
        omega))]
      rw [abortCheck_zeros]
      obtain ⟨tl1, htl1, hA, hB, hC, hD⟩ := ih (j + 1) (by omega)
        (by rw [hmul]; push_cast; push_cast at hlt hcond; omega)
        (by push_cast at hlt hcond; omega)
      rw [htl1]
      rw [hmul] at hA hB
      refine ⟨_, rfl, ?_, ?_, ?_, ?_⟩
      · rw [spreadDs_append, spreadDs_append, spreadDs_append, hA,
          spreadDs_spread_map, spreadDs_deconvEvsOut,
          show spreadDs [Ev.fftExec] = [] from rfl, hcnt]
        rw [show (List.range nth).map (fun i => j * nth + i) =
          List.range' (j * nth) nth from (List.range'_eq_map_range _ _).symm]
        simp only [List.append_nil, List.nil_append]
        rw [List.range'_append_1]
        congr 1
        omega
      · rw [deconvOutDs_append, deconvOutDs_append, deconvOutDs_append, hB,
          deconvOutDs_spread_map, deconvOutDs_deconvEvsOut,
          show deconvOutDs [Ev.fftExec] = [] from rfl, hcnt]
        simp only [List.append_nil, List.nil_append]
        rw [List.range'_append_1]
        congr 1
        omega
      · rw [countFft_append, countFft_append, countFft_append, hC,
          countFft_spread_map, countFft_deconvEvsOut,
          show countFft [Ev.fftExec] = 1 from rfl]
        omega
      · rw [recordsOf_append]
        exact List.mem_append_right _ hD
    · have hjj : j = j0 := le_antisymm hj hjge
      subst hjj
      have hcnt : min (ndata - ((j * nth : Nat) : Int)).toNat nth =
          min (ndata.toNat - j * nth) nth := by omega
      rw [hcnt]
      rw [batchSpread_zeros_spec env (j * nth) nth _ (min_le_right _ _)]
      rw [List.range_eq_range' nth]
      rw [abortCheck_map_first
        (fun i => if i < min (ndata.toNat - j * nth) nth ∧
            0 < env.spreadIdxIer (j * nth + i) then (1 : Int) else 0)
        (fun i => if i < min (ndata.toNat - j * nth) nth ∧
            0 < env.spreadIdxIer (j * nth + i)
          then env.spreadIdxIer (j * nth + i) else 0)
        nth 0 i0 (Nat.zero_le i0) (by omega)
        (show (if i0 < min (ndata.toNat - j * nth) nth ∧
            0 < env.spreadIdxIer (j * nth + i0) then (1 : Int) else 0) ≠ 0 by
          rw [if_pos ⟨hi0, hfail⟩]; norm_num)
        (fun i _ hilt => show (if i < min (ndata.toNat - j * nth) nth ∧
            0 < env.spreadIdxIer (j * nth + i) then (1 : Int) else 0) = 0 by
          rw [if_neg]
          rintro ⟨_, hp⟩
          exact absurd hp (not_lt.mpr (hbef (j * nth + i) (by omega))))]
      rw [if_pos (⟨hi0, hfail⟩ : i0 < min (ndata.toNat - j * nth) nth ∧
        0 < env.spreadIdxIer (j * nth + i0))]
      refine ⟨_, rfl, ?_, ?_, ?_, ?_⟩
      · rw [spreadDs_flatMap_batch,
          show j * nth + min (ndata.toNat - j * nth) nth - j * nth =
            min (ndata.toNat - j * nth) nth from by omega]
        exact (List.range'_eq_map_range _ _).symm
      · rw [deconvOutDs_flatMap_batch, Nat.sub_self]
        rfl
      · rw [countFft_flatMap_batch, Nat.sub_self]
      · exact record_mem_flatMap_batch env (j * nth) i0 hfail _ (List.mem_range.mpr hi0)

theorem simulOuter2_firstFail (env : Env F) (ndata : Int) (nth : Nat) (hnth : 1 ≤ nth)
    (j0 i0 : Nat)
    (hi0 : i0 < min (ndata.toNat - j0 * nth) nth)
    (hfail : 0 < env.spreadIdxIer (j0 * nth + i0))
    (hbef : ∀ d : Nat, d < j0 * nth + i0 → env.spreadIdxIer d ≤ 0) :
    ∀ (fuel j : Nat), j ≤ j0 → ndata < ((j * nth : Nat) : Int) + (fuel : Int) → 1 ≤ fuel →
      ∃ tl, simulOuter2 env ndata nth fuel j
          (SimulSt.mk (List.replicate nth 0) (List.replicate nth 0)) =
            some (some (env.spreadIdxIer (j0 * nth + i0)), tl) ∧
        spreadDs tl = List.range' (j * nth)
          (j0 * nth + min (ndata.toNat - j0 * nth) nth - j * nth) ∧
        deconvInDs tl = List.range' (j * nth)
          (j0 * nth + min (ndata.toNat - j0 * nth) nth - j * nth) ∧
        countFft tl = j0 + 1 - j ∧
        (i0, env.spreadIdxIer (j0 * nth + i0)) ∈ recordsOf tl := by
  have hd0n : j0 * nth + i0 < ndata.toNat := by omega
  intro fuel
  induction fuel with
  | zero => intro j _ _ h1; omega
  | succ n ih =>
    intro j hj hlt _
    have hjle : j * nth ≤ j0 * nth := Nat.mul_le_mul hj (le_refl nth)
    have hcond : ((j * nth : Nat) : Int) < ndata := by omega
    simp only [simulOuter2]
    rw [if_pos hcond]
    rcases Nat.lt_or_ge j j0 with hjlt | hjge
    · have hj1le : (j + 1) * nth ≤ j0 * nth := Nat.mul_le_mul (by omega) (le_refl nth)
      have hmul : (j + 1) * nth = j * nth + nth := by ring
      have hcnt : min (ndata - ((j * nth : Nat) : Int)).toNat nth = nth := by omega
      rw [batchSpread_ok env (j * nth) _ _ (fun i hi => hbef _ (by
        rw [hcnt] at hi
        have hi2 : i < nth := List.mem_range.mp hi
        omega))]
      rw [abortCheck_zeros]
      obtain ⟨tl1, htl1, hA, hB, hC, hD⟩ := ih (j + 1) (by omega)
        (by rw [hmul]; push_cast; push_cast at hlt hcond; omega)
        (by push_cast at hlt hcond; omega)
      rw [htl1]
      rw [hmul] at hA hB
      refine ⟨_, rfl, ?_, ?_, ?_, ?_⟩
      · rw [spreadDs_append, spreadDs_append, spreadDs_append, hA,
          spreadDs_spread_map, spreadDs_deconvEvsIn,
          show spreadDs [Ev.fftExec] = [] from rfl, hcnt]
        rw [show (List.range nth).map (fun i => j * nth + i) =
          List.range' (j * nth) nth from (List.range'_eq_map_range _ _).symm]
        simp only [List.append_nil, List.nil_append]
        rw [List.range'_append_1]
        congr 1
        omega
      · rw [deconvInDs_append, deconvInDs_append, deconvInDs_append, hB,
          deconvInDs_deconvEvsIn,
          show deconvInDs [Ev.fftExec] = [] from rfl, hcnt]
        rw [show deconvInDs ((List.range nth).map
            (fun i => Ev.spread (j * nth + i))) = [] from by
          simp only [deconvInDs]
          exact filterMap_map_none _ _ (fun a => rfl) _]
        simp only [List.append_nil, List.nil_append]
        rw [List.range'_append_1]
        congr 1
        omega
      · rw [countFft_append, countFft_append, countFft_append, hC,
          countFft_spread_map, countFft_deconvEvsIn,
          show countFft [Ev.fftExec] = 1 from rfl]
        omega
      · rw [recordsOf_append]
        exact List.mem_append_right _ hD
    · have hjj : j = j0 := le_antisymm hj hjge
      subst hjj
      have hcnt : min (ndata - ((j * nth : Nat) : Int)).toNat nth =
          min (ndata.toNat - j * nth) nth := by omega
      rw [hcnt]
      rw [batchSpread_zeros_spec env (j * nth) nth _ (min_le_right _ _)]
      rw [List.range_eq_range' nth]
      rw [abortCheck_map_first
        (fun i => if i < min (ndata.toNat - j * nth) nth ∧
            0 < env.spreadIdxIer (j * nth + i) then (1 : Int) else 0)
        (fun i => if i < min (ndata.toNat - j * nth) nth ∧
            0 < env.spreadIdxIer (j * nth + i)
          then env.spreadIdxIer (j * nth + i) else 0)
        nth 0 i0 (Nat.zero_le i0) (by omega)
        (show (if i0 < min (ndata.toNat - j * nth) nth ∧
            0 < env.spreadIdxIer (j * nth + i0) then (1 : Int) else 0) ≠ 0 by
          rw [if_pos ⟨hi0, hfail⟩]; norm_num)
        (fun i _ hilt => show (if i < min (ndata.toNat - j * nth) nth ∧
            0 < env.spreadIdxIer (j * nth + i) then (1 : Int) else 0) = 0 by
          rw [if_neg]
          rintro ⟨_, hp⟩
          exact absurd hp (not_lt.mpr (hbef (j * nth + i) (by omega))))]
      rw [if_pos (⟨hi0, hfail⟩ : i0 < min (ndata.toNat - j * nth) nth ∧
        0 < env.spreadIdxIer (j * nth + i0))]
      refine ⟨_, rfl, ?_, ?_, ?_, ?_⟩
      · rw [spreadDs_append, spreadDs_append, spreadDs_flatMap_batch,
          spreadDs_deconvEvsIn, show spreadDs [Ev.fftExec] = [] from rfl,
          show j * nth + min (ndata.toNat - j * nth) nth - j * nth =
            min (ndata.toNat - j * nth) nth from by omega]
        simp only [List.nil_append]
        exact (List.range'_eq_map_range _ _).symm
      · rw [deconvInDs_append, deconvInDs_append, deconvInDs_flatMap_batch,
          deconvInDs_deconvEvsIn, show deconvInDs [Ev.fftExec] = [] from rfl,
          show j * nth + min (ndata.toNat - j * nth) nth - j * nth =
            min (ndata.toNat - j * nth) nth from by omega]
        simp
      · rw [countFft_append, countFft_append, countFft_flatMap_batch,
          countFft_deconvEvsIn, show countFft [Ev.fftExec] = 1 from rfl]
        omega
      · rw [recordsOf_append]
        exact List.mem_append_right _
          (record_mem_flatMap_batch env (j * nth) i0 hfail _ (List.mem_range.mpr hi0))

theorem count_range_eq (n d : Nat) : (List.range n).count d = if d < n then 1 else 0 := by
  by_cases hd : d < n
  · rw [if_pos hd]
    exact List.count_eq_one_of_mem (List.nodup_range n) (List.mem_range.mpr hd)
  · rw [if_neg hd]
    exact List.count_eq_zero_of_not_mem (by simpa using hd)

end BatchLemmas

/-- C5: for every `ndata ≥ 1` and ambient thread count `nth ≥ 1`, the
simultaneous batched paths process exactly the transforms
`d = 0 .. ndata-1`: the outer loop runs while `j*nth < ndata`, the inner
parallel loops iterate `i < min(ndata - j*nth, nth)`, so a ragged final
batch handles only the remaining transforms, and every output slice is
written exactly once (the spreader and deconvolve calls of
`finufft2d1manysimul` and `finufft2d2manysimul` each touch the slice of
every transform index exactly once, in particular each `fk + d*ms*mt`
slice of the type-1 path). -/
theorem c5_ragged_batches {F : Type} [Field F] [DecidableEq F] (env : Env F)
    (ndata iflag : Int) (eps : F) (ms mt : Int) (opts : NufftOpts)
    (hset : env.setupIer eps opts = 0)
    (h12 : env.setNf ms * env.setNf mt ≤ env.maxNF)
    (hcheck : env.checkIer ≤ 0)
    (hok : ∀ d, env.spreadIdxIer d ≤ 0)
    (hnth : 1 ≤ env.nth)
    (hnd : 1 ≤ ndata) :
    (∃ tr, finufft2d1manysimul env ndata iflag eps ms mt opts = some ⟨0, tr⟩ ∧
      spreadDs tr = List.range ndata.toNat ∧
      deconvOutDs tr = List.range ndata.toNat ∧
      ∀ d : Nat, (deconvOutDs tr).count d = if d < ndata.toNat then 1 else 0) ∧
    (∃ tr, finufft2d2manysimul env ndata iflag eps ms mt opts = some ⟨0, tr⟩ ∧
      spreadDs tr = List.range ndata.toNat ∧
      deconvInDs tr = List.range ndata.toNat ∧
      ∀ d : Nat, (spreadDs tr).count d = if d < ndata.toNat then 1 else 0) := by
  have hz : ¬ (0 : Int) ≠ 0 := by simp
  have hnthn : 1 ≤ env.nth.toNat := by omega
  obtain ⟨tl1, htl1, hsp1, hdc1⟩ := simulOuter1_noFail env ndata env.nth.toNat hnthn hok
    (ndata.toNat + 1) 0 (by push_cast; omega) (by omega)
  obtain ⟨tl2, htl2, hsp2, hdc2⟩ := simulOuter2_noFail env ndata env.nth.toNat hnthn hok
    (ndata.toNat + 1) 0 (by push_cast; omega) (by omega)
  simp only [Nat.zero_mul, Nat.sub_zero] at hsp1 hdc1 hsp2 hdc2
  constructor
  · have hres1 : finufft2d1manysimul env ndata iflag eps ms mt opts =
        some ⟨0, manyPrologue (if 0 ≤ iflag then 1 else -1) ++ tl1 ++ [Ev.planDestroy,
          Ev.free Rsrc.fw, Ev.free Rsrc.fwkerhalf1, Ev.free Rsrc.fwkerhalf2,
          Ev.free Rsrc.sortIndices]⟩ := by
      simp only [finufft2d1manysimul, hset]
      rw [if_neg hz, if_neg (not_lt.mpr h12), if_neg (not_lt.mpr hcheck), htl1]
    have hA : spreadDs (manyPrologue (if 0 ≤ iflag then 1 else -1) ++ tl1 ++
        [Ev.planDestroy, Ev.free Rsrc.fw, Ev.free Rsrc.fwkerhalf1,
          Ev.free Rsrc.fwkerhalf2, Ev.free Rsrc.sortIndices]) = List.range ndata.toNat := by
      rw [spreadDs_append, spreadDs_append, hsp1]
      simp [spreadDs, manyPrologue, List.range_eq_range']
    have hB : deconvOutDs (manyPrologue (if 0 ≤ iflag then 1 else -1) ++ tl1 ++
        [Ev.planDestroy, Ev.free Rsrc.fw, Ev.free Rsrc.fwkerhalf1,
          Ev.free Rsrc.fwkerhalf2, Ev.free Rsrc.sortIndices]) = List.range ndata.toNat := by
      rw [deconvOutDs_append, deconvOutDs_append, hdc1]
      simp [deconvOutDs, manyPrologue, List.range_eq_range']
    refine ⟨_, hres1, hA, hB, ?_⟩
    intro d
    rw [hB]
    exact count_range_eq ndata.toNat d
  · have hres2 : finufft2d2manysimul env ndata iflag eps ms mt opts =
        some ⟨0, manyPrologue (if 0 ≤ iflag then 1 else -1) ++ tl2 ++ [Ev.free Rsrc.fw,
          Ev.free Rsrc.fwkerhalf1, Ev.free Rsrc.fwkerhalf2, Ev.free Rsrc.sortIndices]⟩ := by
      simp only [finufft2d2manysimul, hset]
      rw [if_neg hz, if_neg (not_lt.mpr h12), if_neg (not_lt.mpr hcheck), htl2]
    have hA : spreadDs (manyPrologue (if 0 ≤ iflag then 1 else -1) ++ tl2 ++
        [Ev.free Rsrc.fw, Ev.free Rsrc.fwkerhalf1, Ev.free Rsrc.fwkerhalf2,
          Ev.free Rsrc.sortIndices]) = List.range ndata.toNat := by
      rw [spreadDs_append, spreadDs_append, hsp2]
      simp [spreadDs, manyPrologue, List.range_eq_range']
    have hB : deconvInDs (manyPrologue (if 0 ≤ iflag then 1 else -1) ++ tl2 ++
        [Ev.free Rsrc.fw, Ev.free Rsrc.fwkerhalf1, Ev.free Rsrc.fwkerhalf2,
          Ev.free Rsrc.sortIndices]) = List.range ndata.toNat := by
      rw [deconvInDs_append, deconvInDs_append, hdc2]
      simp [deconvInDs, manyPrologue, List.range_eq_range']
    refine ⟨_, hres2, hA, hB, ?_⟩
    intro d
    rw [hA]
    exact count_range_eq ndata.toNat d

/-- C4 counterexample: the claim asserts that in BOTH batched
disciplines a failing spreader status is recorded in the `ier_spreads`
and `abort` arrays inside the parallel region.  In the sequential
discipline (`finufft2d1manyseq`) no such arrays exist: at a concrete run
whose transform 0 fails with `ERR_SPREAD_PTS_OUT_RANGE`, the status is
returned directly from the serial loop and the trace contains no
recording event at all. -/
theorem c4_seq_no_record_counterexample :
    (finufft2d1manyseq envIdxFail0 1 1 1 2 2 optsSeq).ier = ERR_SPREAD_PTS_OUT_RANGE ∧
    recordsOf (finufft2d1manyseq envIdxFail0 1 1 1 2 2 optsSeq).trace = [] := by
  decide

/-- C4 (amended): when the first failing transform is `j0*nth + i0`
(slot `i0` of batch `j0`), the batched paths surface that first nonzero
spreader status as the return value and do no further work after the
failing batch.  In the simultaneous discipline the status is recorded
per slot in the `ier_spreads`/`abort` arrays inside the parallel region
and the check after the region returns the code of the lowest-indexed
failing slot; in the sequential discipline the status is returned
immediately from the serial loop with no recording arrays.  In the
type-1 simultaneous path the failing batch performs no FFT and no
deconvolve; in the type-2 simultaneous path the failing batch's amplify
and FFT have already run, and nothing runs after the check. -/
theorem c4_error_surfacing_amended {F : Type} [Field F] [DecidableEq F] (env : Env F)
    (ndata iflag : Int) (eps : F) (ms mt : Int) (opts : NufftOpts)
    (hset : env.setupIer eps opts = 0)
    (h12 : env.setNf ms * env.setNf mt ≤ env.maxNF)
    (hcheck : env.checkIer ≤ 0)
    (j0 i0 : Nat)
    (hi0 : i0 < min (ndata.toNat - j0 * env.nth.toNat) env.nth.toNat)
    (hfail : 0 < env.spreadIdxIer (j0 * env.nth.toNat + i0))
    (hbef : ∀ d : Nat, d < j0 * env.nth.toNat + i0 → env.spreadIdxIer d ≤ 0)
    (hnth : 1 ≤ env.nth) :
    (∃ tr, finufft2d1manyseq env ndata iflag eps ms mt opts =
        ⟨env.spreadIdxIer (j0 * env.nth.toNat + i0), tr⟩ ∧
      recordsOf tr = [] ∧
      spreadDs tr = List.range (j0 * env.nth.toNat + i0 + 1) ∧
      deconvOutDs tr = List.range (j0 * env.nth.toNat + i0) ∧
      countFft tr = j0 * env.nth.toNat + i0) ∧
    (∃ tr, finufft2d1manysimul env ndata iflag eps ms mt opts =
        some ⟨env.spreadIdxIer (j0 * env.nth.toNat + i0), tr⟩ ∧
      (i0, env.spreadIdxIer (j0 * env.nth.toNat + i0)) ∈ recordsOf tr ∧
      spreadDs tr = List.range (j0 * env.nth.toNat +
        min (ndata.toNat - j0 * env.nth.toNat) env.nth.toNat) ∧
      deconvOutDs tr = List.range (j0 * env.nth.toNat) ∧
      countFft tr = j0) ∧
    (∃ tr, finufft2d2manysimul env ndata iflag eps ms mt opts =
        some ⟨env.spreadIdxIer (j0 * env.nth.toNat + i0), tr⟩ ∧
      (i0, env.spreadIdxIer (j0 * env.nth.toNat + i0)) ∈ recordsOf tr ∧
      spreadDs tr = List.range (j0 * env.nth.toNat +
        min (ndata.toNat - j0 * env.nth.toNat) env.nth.toNat) ∧
      deconvInDs tr = List.range (j0 * env.nth.toNat +
        min (ndata.toNat - j0 * env.nth.toNat) env.nth.toNat) ∧
      countFft tr = j0 + 1) := by
  have hz : ¬ (0 : Int) ≠ 0 := by simp
  have hnthn : 1 ≤ env.nth.toNat := by omega
  have hd0 : j0 * env.nth.toNat + i0 < ndata.toNat := by omega
  refine ⟨?_, ?_, ?_⟩
  · have hseq := seqLoop1_firstFail env ndata.toNat 0 (j0 * env.nth.toNat + i0)
      (Nat.zero_le _) (by omega) hfail (fun d _ hd2 => hbef d hd2)
    simp only [Nat.sub_zero] at hseq
    have hres : finufft2d1manyseq env ndata iflag eps ms mt opts =
        ⟨env.spreadIdxIer (j0 * env.nth.toNat + i0),
          manyPrologue (if 0 ≤ iflag then 1 else -1) ++
            ((List.range' 0 (j0 * env.nth.toNat + i0)).flatMap
              (fun d => [Ev.spread d, Ev.fftExec, Ev.deconvOut d]) ++
              [Ev.spread (j0 * env.nth.toNat + i0)])⟩ := by
      simp only [finufft2d1manyseq, hset]
      rw [if_neg hz, if_neg (not_lt.mpr h12), if_neg (not_lt.mpr hcheck)]
      rw [List.range_eq_range', hseq]
    refine ⟨_, hres, ?_, ?_, ?_, ?_⟩
    · rw [recordsOf_append, recordsOf_append, recordsOf_flatMap_triple,
        show recordsOf (manyPrologue (if 0 ≤ iflag then 1 else -1)) = [] from rfl,
        show recordsOf [Ev.spread (j0 * env.nth.toNat + i0)] = [] from rfl]
      rfl
    · rw [spreadDs_append, spreadDs_append, spreadDs_flatMap_triple,
        show spreadDs (manyPrologue (if 0 ≤ iflag then 1 else -1)) = [] from rfl,
        show spreadDs [Ev.spread (j0 * env.nth.toNat + i0)] =
          [j0 * env.nth.toNat + i0] from rfl]
      rw [List.nil_append, ← List.range_eq_range', ← List.range_succ]
    · rw [deconvOutDs_append, deconvOutDs_append, deconvOutDs_flatMap_triple,
        show deconvOutDs (manyPrologue (if 0 ≤ iflag then 1 else -1)) = [] from rfl,
        show deconvOutDs [Ev.spread (j0 * env.nth.toNat + i0)] = [] from rfl]
      rw [List.nil_append, List.append_nil, ← List.range_eq_range']
    · rw [countFft_append, countFft_append, countFft_flatMap_triple,
        List.length_range',
        show countFft (manyPrologue (if 0 ≤ iflag then 1 else -1)) = 0 from rfl,
        show countFft [Ev.spread (j0 * env.nth.toNat + i0)] = 0 from rfl]
      omega
  · obtain ⟨tl, htl, hA, hB, hC, hD⟩ := simulOuter1_firstFail env ndata env.nth.toNat
      hnthn j0 i0 hi0 hfail hbef (ndata.toNat + 1) 0 (Nat.zero_le _)
      (by push_cast; omega) (by omega)
    simp only [Nat.zero_mul, Nat.sub_zero] at hA hB hC
    have hres : finufft2d1manysimul env ndata iflag eps ms mt opts =
        some ⟨env.spreadIdxIer (j0 * env.nth.toNat + i0),
          manyPrologue (if 0 ≤ iflag then 1 else -1) ++ tl⟩ := by
      simp only [finufft2d1manysimul, hset]
      rw [if_neg hz, if_neg (not_lt.mpr h12), if_neg (not_lt.mpr hcheck), htl]
    refine ⟨_, hres, ?_, ?_, ?_, ?_⟩
    · rw [recordsOf_append,
        show recordsOf (manyPrologue (if 0 ≤ iflag then 1 else -1)) = [] from rfl,
        List.nil_append]
      exact hD
    · rw [spreadDs_append,
        show spreadDs (manyPrologue (if 0 ≤ iflag then 1 else -1)) = [] from rfl,
        List.nil_append, hA, ← List.range_eq_range']
    · rw [deconvOutDs_append,
        show deconvOutDs (manyPrologue (if 0 ≤ iflag then 1 else -1)) = [] from rfl,
        List.nil_append, hB, ← List.range_eq_range']
    · rw [countFft_append,
        show countFft (manyPrologue (if 0 ≤ iflag then 1 else -1)) = 0 from rfl, hC]
      omega
  · obtain ⟨tl, htl, hA, hB, hC, hD⟩ := simulOuter2_firstFail env ndata env.nth.toNat
      hnthn j0 i0 hi0 hfail hbef (ndata.toNat + 1) 0 (Nat.zero_le _)
      (by push_cast; omega) (by omega)
    simp only [Nat.zero_mul, Nat.sub_zero] at hA hB hC
    have hres : finufft2d2manysimul env ndata iflag eps ms mt opts =
        some ⟨env.spreadIdxIer (j0 * env.nth.toNat + i0),
          manyPrologue (if 0 ≤ iflag then 1 else -1) ++ tl⟩ := by
      simp only [finufft2d2manysimul, hset]
      rw [if_neg hz, if_neg (not_lt.mpr h12), if_neg (not_lt.mpr hcheck), htl]
    refine ⟨_, hres, ?_, ?_, ?_, ?_⟩
    · rw [recordsOf_append,
        show recordsOf (manyPrologue (if 0 ≤ iflag then 1 else -1)) = [] from rfl,
        List.nil_append]
      exact hD
    · rw [spreadDs_append,
        show spreadDs (manyPrologue (if 0 ≤ iflag then 1 else -1)) = [] from rfl,
        List.nil_append, hA, ← List.range_eq_range']
    · rw [deconvInDs_append,
        show deconvInDs (manyPrologue (if 0 ≤ iflag then 1 else -1)) = [] from rfl,
        List.nil_append, hB, ← List.range_eq_range']
    · rw [countFft_append,
        show countFft (manyPrologue (if 0 ≤ iflag then 1 else -1)) = 0 from rfl, hC]
      omega

/-- As `envQ`, but the per-transform spreader fails on transform 2
(slot 0 of batch 1 when `nth = 2`). -/
def envIdxFail2 : Env ℚ :=
  { envQ with spreadIdxIer := fun d => if d = 2 then ERR_SPREAD_PTS_OUT_RANGE else 0 }

/-- Witness for the amended C4 at `ndata = 3`, `nth = 2`, first failure
at transform 2 (slot 0 of batch 1). -/
theorem c4_error_surfacing_amended_witness :
    ∃ tr, finufft2d1manyseq envIdxFail2 3 1 1 2 2 optsSeq =
        ⟨envIdxFail2.spreadIdxIer (1 * envIdxFail2.nth.toNat + 0), tr⟩ ∧
      recordsOf tr = [] ∧
      spreadDs tr = List.range (1 * envIdxFail2.nth.toNat + 0 + 1) ∧
      deconvOutDs tr = List.range (1 * envIdxFail2.nth.toNat + 0) ∧
      countFft tr = 1 * envIdxFail2.nth.toNat + 0 :=
  (c4_error_surfacing_amended envIdxFail2 3 1 1 2 2 optsSeq rfl
    (by norm_num [envIdxFail2, envQ]) (by norm_num [envIdxFail2, envQ]) 1 0
    (by norm_num [envIdxFail2, envQ])
    (by decide)
    (fun d hd => by
      simp only [envIdxFail2, envQ] at hd ⊢
      rw [if_neg (by omega)])
    (by norm_num [envIdxFail2, envQ])).1

/-- Witness for C5 at `ndata = 3`, `nth = 2` — a ragged final batch. -/
theorem c5_ragged_batches_witness :
    (∃ tr, finufft2d1manysimul envQ 3 1 1 2 2 optsD = some ⟨0, tr⟩ ∧
      spreadDs tr = List.range 3 ∧
      deconvOutDs tr = List.range 3 ∧
      ∀ d : Nat, (deconvOutDs tr).count d = if d < 3 then 1 else 0) ∧
    (∃ tr, finufft2d2manysimul envQ 3 1 1 2 2 optsD = some ⟨0, tr⟩ ∧
      spreadDs tr = List.range 3 ∧
      deconvInDs tr = List.range 3 ∧
      ∀ d : Nat, (spreadDs tr).count d = if d < 3 then 1 else 0) :=
  c5_ragged_batches envQ 3 1 1 2 2 optsD rfl (by norm_num [envQ]) (by norm_num [envQ])
    (fun _ => le_refl 0) (by norm_num [envQ]) (by norm_num)

/-- C1: when the internal type-2 call inside `finufft2d3` reports a
nonzero status, the source executes `exit(ier_t2)` — the process is
terminated — instead of returning the code to the caller as the claim
(and the function's own documentation) states.  Evaluated at a concrete
input whose internal type-2 call fails with `ERR_SPREAD_PTS_OUT_RANGE`:
the outcome is a process exit, not a status return. -/
theorem c1_type2_error_exits_process :
    (finufft2d3 envT2Fail [1] [1] [(1, 0)] [1] [1] 1 1 [] optsD).outcome =
        Outcome.exited ERR_SPREAD_PTS_OUT_RANGE ∧
      ∀ code : Int,
        (finufft2d3 envT2Fail [1] [1] [(1, 0)] [1] [1] 1 1 [] optsD).outcome ≠
          Outcome.ret code := by
  refine ⟨by decide, ?_⟩
  intro code
  simp [show (finufft2d3 envT2Fail [1] [1] [(1, 0)] [1] [1] 1 1 [] optsD).outcome =
    Outcome.exited ERR_SPREAD_PTS_OUT_RANGE from by decide]

/-- C2: internal buffers and the FFT plan are not released on every exit
path.  Evaluated at two concrete runs: (a) a `finufft2d1` call whose
spreader fails — the early return leaks `fw`, both kernel tables, and
the plan; (b) a successful `finufft2d2manyseq` run — even on success the
FFT plan is created but never destroyed. -/
theorem c2_buffers_leaked :
    ((finufft2d1 envSpFail [1] [1] [(1, 0)] 1 1 2 2 [] optsD).ier =
        ERR_SPREAD_PTS_OUT_RANGE ∧
      allocsOf (finufft2d1 envSpFail [1] [1] [(1, 0)] 1 1 2 2 [] optsD).trace Rsrc.fw = 1 ∧
      freesOf (finufft2d1 envSpFail [1] [1] [(1, 0)] 1 1 2 2 [] optsD).trace Rsrc.fw = 0 ∧
      freesOf (finufft2d1 envSpFail [1] [1] [(1, 0)] 1 1 2 2 [] optsD).trace
        Rsrc.fwkerhalf1 = 0 ∧
      planCreates (finufft2d1 envSpFail [1] [1] [(1, 0)] 1 1 2 2 [] optsD).trace = 1 ∧
      planDestroys (finufft2d1 envSpFail [1] [1] [(1, 0)] 1 1 2 2 [] optsD).trace = 0) ∧
    ((finufft2d2manyseq envQ 1 1 1 2 2 optsSeq).ier = 0 ∧
      planCreates (finufft2d2manyseq envQ 1 1 1 2 2 optsSeq).trace = 1 ∧
      planDestroys (finufft2d2manyseq envQ 1 1 1 2 2 optsSeq).trace = 0) := by
  decide

/-- C9: `finufft2d3` never modifies its input arrays `xj`, `yj`, `cj`,
`s`, `t`: on every path the returned visible state carries them
unchanged (the only caller-visible array written is the output `fk`). -/
theorem c9_type3_inputs_preserved {F : Type} [Field F] [DecidableEq F] (env : Env F)
    (xj yj : List F) (cj : List (F × F)) (s t : List F) (iflag : Int) (eps : F)
    (fk0 : List (F × F)) (opts : NufftOpts) :
    (finufft2d3 env xj yj cj s t iflag eps fk0 opts).xj = xj ∧
      (finufft2d3 env xj yj cj s t iflag eps fk0 opts).yj = yj ∧
      (finufft2d3 env xj yj cj s t iflag eps fk0 opts).cj = cj ∧
      (finufft2d3 env xj yj cj s t iflag eps fk0 opts).s = s ∧
      (finufft2d3 env xj yj cj s t iflag eps fk0 opts).t = t := by
  simp only [finufft2d3]
  refine ⟨?_, ?_, ?_, ?_, ?_⟩ <;> (repeat' split) <;> rfl

/-- C7: for `ndata < 1` both batched entry points return
`ERR_NDATA_NOTVALID` with an empty event trace (no planner call, no
allocation, no FFT); for `ndata ≥ 1` the check passes and the entry
points dispatch on `opts.many_seq` (nonzero selects the sequential
discipline, zero the simultaneous one). -/
theorem c7_ndata_guard {F : Type} [Field F] [DecidableEq F] (env : Env F)
    (ndata : Int) (iflag : Int) (eps : F) (ms mt : Int) (opts : NufftOpts) :
    (ndata < 1 →
      finufft2d1many env ndata iflag eps ms mt opts = some ⟨ERR_NDATA_NOTVALID, []⟩ ∧
      finufft2d2many env ndata iflag eps ms mt opts = some ⟨ERR_NDATA_NOTVALID, []⟩) ∧
    (1 ≤ ndata →
      finufft2d1many env ndata iflag eps ms mt opts =
        (if opts.many_seq ≠ 0 then
          some (finufft2d1manyseq env ndata iflag eps ms mt opts)
         else finufft2d1manysimul env ndata iflag eps ms mt opts) ∧
      finufft2d2many env ndata iflag eps ms mt opts =
        (if opts.many_seq ≠ 0 then
          some (finufft2d2manyseq env ndata iflag eps ms mt opts)
         else finufft2d2manysimul env ndata iflag eps ms mt opts)) := by
  constructor
  · intro h
    constructor <;> simp [finufft2d1many, finufft2d2many, h]
  · intro h
    have hn : ¬ ndata < 1 := by omega
    constructor <;> simp [finufft2d1many, finufft2d2many, hn]

/-- Witness for C7: at `ndata = 0` both entry points reject; at
`ndata = 1` with `many_seq = 1` the sequential discipline is invoked. -/
theorem c7_ndata_guard_witness :
    (finufft2d1many envQ 0 1 1 2 2 optsD = some ⟨ERR_NDATA_NOTVALID, []⟩ ∧
      finufft2d2many envQ 0 1 1 2 2 optsD = some ⟨ERR_NDATA_NOTVALID, []⟩) ∧
    finufft2d1many envQ 1 1 1 2 2 optsSeq =
      some (finufft2d1manyseq envQ 1 1 1 2 2 optsSeq) := by
  refine ⟨(c7_ndata_guard envQ 0 1 1 2 2 optsD).1 (by decide), ?_⟩
  have h := ((c7_ndata_guard envQ 1 1 1 2 2 optsSeq).2 (by decide)).1
  simpa using h

/-- C10: the fast-path branches of `finufft2d3` are equivalent to its
general formulas.  When `D1 = D2 = 0` the plain copy equals the rephase
loop, and when `C1 = C2 = 0` the unphased deconvolve loop equals the
phased one, because the omitted exponential factor is `exp(0) = 1`
(hypothesis `hcexp`); hence each if/else computes the same result as the
always-phased formula on every input.  The `isfinite` guard of the
source has no counterpart in the field-valued scalar model, where every
value is finite. -/
theorem c10_fast_path_equiv {F : Type} [Field F] [DecidableEq F] (env : Env F)
    (ima : F × F) (D1 D2 C1 C2 : F) (xj yj s t fkker1 fkker2 : List F)
    (cj fk : List (F × F)) (hcexp : env.cexp 0 = (1, 0)) :
    prephaseLoop env ima D1 D2 xj yj cj = prephaseAll env ima D1 D2 xj yj cj ∧
    postdeconvLoop env ima C1 D1 C2 D2 s t fkker1 fkker2 fk =
      postdeconvAll env ima C1 D1 C2 D2 s t fkker1 fkker2 fk :=
  ⟨prephaseLoop_eq_all env ima D1 D2 xj yj cj hcexp,
   postdeconvLoop_eq_all env ima C1 D1 C2 D2 s t fkker1 fkker2 fk hcexp⟩

/-- Witness for C10 at a concrete instance (zero shifts and centers, the
constant-one library exponential). -/
theorem c10_fast_path_equiv_witness :
    prephaseLoop envQ (0, 1) 0 0 [1] [1] [(2, 3)] =
      prephaseAll envQ (0, 1) 0 0 [1] [1] [(2, 3)] ∧
    postdeconvLoop envQ (0, 1) 0 0 0 0 [1] [1] [1] [1] [(2, 3)] =
      postdeconvAll envQ (0, 1) 0 0 0 0 [1] [1] [1] [1] [(2, 3)] :=
  c10_fast_path_equiv envQ (0, 1) 0 0 0 0 [1] [1] [1] [1] [1] [1]
    [(2, 3)] [(2, 3)] (by decide)

/-- C6: in every entry path (`finufft2d1`, `finufft2d2`, `finufft2d3`,
both disciplines of both batched variants, and the two batched
dispatchers with a valid `ndata`), if the planner succeeds and the
planned grid sizes satisfy `nf1*nf2 > MAX_NF`, the function returns
`ERR_MAXNALLOC` with only the planner call in its trace — before any
buffer allocation, any plan creation, and any FFT execution. -/
theorem c6_maxnf_guard {F : Type} [Field F] [DecidableEq F] (env : Env F)
    (xj yj : List F) (cj fkin fk0 cj0 : List (F × F)) (s t : List F)
    (ndata iflag : Int) (eps : F) (ms mt : Int) (opts : NufftOpts)
    (hset : env.setupIer eps opts = 0)
    (h12 : env.setNf ms * env.setNf mt > env.maxNF)
    (h3 : (env.setNhg (env.widcen s).1 (env.widcen xj).1).1 *
        (env.setNhg (env.widcen t).1 (env.widcen yj).1).1 > env.maxNF)
    (hnd : 1 ≤ ndata) :
    finufft2d1 env xj yj cj iflag eps ms mt fk0 opts =
        ⟨ERR_MAXNALLOC, fk0, [Ev.plannerCall]⟩ ∧
    finufft2d2 env xj yj fkin iflag eps ms mt cj0 opts =
        ⟨ERR_MAXNALLOC, cj0, [Ev.plannerCall]⟩ ∧
    finufft2d3 env xj yj cj s t iflag eps fk0 opts =
        ⟨Outcome.ret ERR_MAXNALLOC, xj, yj, cj, s, t, fk0, none, [Ev.plannerCall]⟩ ∧
    finufft2d1manyseq env ndata iflag eps ms mt opts =
        ⟨ERR_MAXNALLOC, [Ev.plannerCall]⟩ ∧
    finufft2d2manyseq env ndata iflag eps ms mt opts =
        ⟨ERR_MAXNALLOC, [Ev.plannerCall]⟩ ∧
    finufft2d1manysimul env ndata iflag eps ms mt opts =
        some ⟨ERR_MAXNALLOC, [Ev.plannerCall]⟩ ∧
    finufft2d2manysimul env ndata iflag eps ms mt opts =
        some ⟨ERR_MAXNALLOC, [Ev.plannerCall]⟩ ∧
    finufft2d1many env ndata iflag eps ms mt opts =
        some ⟨ERR_MAXNALLOC, [Ev.plannerCall]⟩ ∧
    finufft2d2many env ndata iflag eps ms mt opts =
        some ⟨ERR_MAXNALLOC, [Ev.plannerCall]⟩ ∧
    countAllocs [Ev.plannerCall] = 0 ∧ countFft [Ev.plannerCall] = 0 ∧
    planCreates [Ev.plannerCall] = 0 := by
  have hnd1 : ¬ ndata < 1 := by omega
  refine ⟨?_, ?_, ?_, ?_, ?_, ?_, ?_, ?_, ?_, by decide, by decide, by decide⟩ <;>
    simp [finufft2d1, finufft2d2, finufft2d3, finufft2d1manyseq, finufft2d2manyseq,
      finufft2d1manysimul, finufft2d2manysimul, finufft2d1many, finufft2d2many,
      hset, h12, h3, hnd1]

/-- As `envQ`, but with an allocation cap below the planned grid size. -/
def envSmallCap : Env ℚ := { envQ with maxNF := 10 }

/-- Witness for C6: with a cap of 10 and planned grids of 4 x 4,
`finufft2d1` rejects before allocating. -/
theorem c6_maxnf_guard_witness :
    finufft2d1 envSmallCap [1] [1] [(1, 0)] 1 1 2 2 [] optsD =
      ⟨ERR_MAXNALLOC, [], [Ev.plannerCall]⟩ :=
  (c6_maxnf_guard envSmallCap [1] [1] [(1, 0)] [] [] [] [1] [1] 1 1 1 2 2 optsD
    (by decide) (by decide) (by decide) (by decide)).1

/-- C8: the transform sign is `+1` exactly when `iflag ≥ 0` (in
particular `iflag = 0` selects the plus sign): whenever the run reaches
plan creation, the sign passed to the FFT planner in `finufft2d1`,
`finufft2d2`, and all four batched variants is `(iflag >= 0) ? 1 : -1`;
and `finufft2d3` uses the imaginary unit `+i` in its prephase and
postphase factors exactly when `iflag ≥ 0`. -/
theorem c8_sign_selection {F : Type} [Field F] [DecidableEq F] (env : Env F)
    (xj yj : List F) (cj fkin fk0 cj0 : List (F × F)) (s t : List F)
    (ndata iflag : Int) (eps : F) (ms mt : Int) (opts : NufftOpts)
    (hset : env.setupIer eps opts = 0)
    (h12 : env.setNf ms * env.setNf mt ≤ env.maxNF)
    (h3 : (env.setNhg (env.widcen s).1 (env.widcen xj).1).1 *
        (env.setNhg (env.widcen t).1 (env.widcen yj).1).1 ≤ env.maxNF)
    (hnth : 1 ≤ env.nth) :
    Ev.planCreate (if 0 ≤ iflag then 1 else -1) ∈
        (finufft2d1 env xj yj cj iflag eps ms mt fk0 opts).trace ∧
    Ev.planCreate (if 0 ≤ iflag then 1 else -1) ∈
        (finufft2d2 env xj yj fkin iflag eps ms mt cj0 opts).trace ∧
    Ev.planCreate (if 0 ≤ iflag then 1 else -1) ∈
        (finufft2d1manyseq env ndata iflag eps ms mt opts).trace ∧
    Ev.planCreate (if 0 ≤ iflag then 1 else -1) ∈
        (finufft2d2manyseq env ndata iflag eps ms mt opts).trace ∧
    (∃ r, finufft2d1manysimul env ndata iflag eps ms mt opts = some r ∧
      Ev.planCreate (if 0 ≤ iflag then 1 else -1) ∈ r.trace) ∧
    (∃ r, finufft2d2manysimul env ndata iflag eps ms mt opts = some r ∧
      Ev.planCreate (if 0 ≤ iflag then 1 else -1) ∈ r.trace) ∧
    (finufft2d3 env xj yj cj s t iflag eps fk0 opts).imasign =
      some (if 0 ≤ iflag then ((0 : F), (1 : F)) else (0, -1)) := by
  have h12n : ¬ env.setNf ms * env.setNf mt > env.maxNF := not_lt.mpr h12
  have h3n : ¬ (env.setNhg (env.widcen s).1 (env.widcen xj).1).1 *
      (env.setNhg (env.widcen t).1 (env.widcen yj).1).1 > env.maxNF := not_lt.mpr h3
  have hnthn : 1 ≤ env.nth.toNat := by omega
  have hz : ¬ (0 : Int) ≠ 0 := by simp
  refine ⟨?_, ?_, ?_, ?_, ?_, ?_, ?_⟩
  · simp only [finufft2d1, hset]
    rw [if_neg hz, if_neg h12n]
    (repeat' split) <;> simp
  · simp only [finufft2d2, hset]
    rw [if_neg hz, if_neg h12n]
    (repeat' split) <;> simp
  · simp only [finufft2d1manyseq, hset]
    rw [if_neg hz, if_neg h12n]
    split
    · simp [manyPrologue]
    · rcases hsl : (seqLoop1 env (List.range ndata.toNat)).1 with _ | code <;>
        simp [hsl, manyPrologue]
  · simp only [finufft2d2manyseq, hset]
    rw [if_neg hz, if_neg h12n]
    split
    · simp [manyPrologue]
    · rcases hsl : (seqLoop2 env (List.range ndata.toNat)).1 with _ | code <;>
        simp [hsl, manyPrologue]
  · simp only [finufft2d1manysimul, hset]
    rw [if_neg hz, if_neg h12n]
    split
    · exact ⟨_, rfl, by simp [manyPrologue]⟩
    · obtain ⟨r0, hr0⟩ := simulOuter1_total env ndata env.nth.toNat hnthn
        (ndata.toNat + 1) 0 (SimulSt.mk (List.replicate env.nth.toNat 0)
          (List.replicate env.nth.toNat 0)) (by push_cast; omega) (by omega)
      rw [hr0]
      rcases r0 with ⟨_ | code, tl⟩
      · exact ⟨_, rfl, by simp [manyPrologue]⟩
      · exact ⟨_, rfl, by simp [manyPrologue]⟩
  · simp only [finufft2d2manysimul, hset]
    rw [if_neg hz, if_neg h12n]
    split
    · exact ⟨_, rfl, by simp [manyPrologue]⟩
    · obtain ⟨r0, hr0⟩ := simulOuter2_total env ndata env.nth.toNat hnthn
        (ndata.toNat + 1) 0 (SimulSt.mk (List.replicate env.nth.toNat 0)
          (List.replicate env.nth.toNat 0)) (by push_cast; omega) (by omega)
      rw [hr0]
      rcases r0 with ⟨_ | code, tl⟩
      · exact ⟨_, rfl, by simp [manyPrologue]⟩
      · exact ⟨_, rfl, by simp [manyPrologue]⟩
  · simp only [finufft2d3, hset]
    rw [if_neg hz, if_neg h3n]
    repeat' split
    all_goals rfl

/-- Characterization of `finufft2d2` on a successful run: status zero
and the output strengths produced by the amplify / FFT / interpolate
chain. -/
theorem finufft2d2_ok {F : Type} [Field F] [DecidableEq F] (env : Env F)
    (xj yj : List F) (fkin : List (F × F)) (iflag : Int) (eps : F) (ms mt : Int)
    (cj0 : List (F × F)) (opts : NufftOpts)
    (hset : env.setupIer eps opts = 0)
    (h12 : env.setNf ms * env.setNf mt ≤ env.maxNF)
    (hin : ∀ n1 n2 fw a b, (env.interpD2 n1 n2 fw a b).1 ≤ 0) :
    (finufft2d2 env xj yj fkin iflag eps ms mt cj0 opts).ier = 0 ∧
    (finufft2d2 env xj yj fkin iflag eps ms mt cj0 opts).cj =
      (env.interpD2 (env.setNf ms) (env.setNf mt)
        (env.fftRun (env.setNf ms) (env.setNf mt) (if 0 ≤ iflag then 1 else -1)
          (env.deconv2 ms mt (env.setNf ms) (env.setNf mt) (env.fseries (env.setNf ms))
            (env.fseries (env.setNf mt)) fkin opts.modeord)) xj yj).2 := by
  have hz : ¬ (0 : Int) ≠ 0 := by simp
  simp only [finufft2d2, hset]
  rw [if_neg hz, if_neg (not_lt.mpr h12), if_neg (not_lt.mpr (hin _ _ _ _ _))]
  exact ⟨rfl, rfl⟩

/-- C3: on every successful run, `finufft2d3` computes its result by
exactly the pipeline stated by the spec: rephase the sources by
`exp(imasign*(D1*xj+D2*yj))`, rescale positions by `(xj-C1)/gam1`,
spread onto the `nf1 x nf2` grid, call the type-2 routine at the
rescaled targets `h*gam*(s-D)` with the grid sizes acting as mode
counts, then divide each output by the kernel transform at the rescaled
targets and multiply by the center-shift phase.  The benign-environment
hypotheses state that the helper routines succeed, the interpolation
returns one value per target, and the library exponential satisfies
`exp(0) = 1`. -/
theorem c3_type3_pipeline {F : Type} [Field F] [DecidableEq F] (env : Env F)
    (xj yj : List F) (cj : List (F × F)) (s t : List F) (iflag : Int) (eps : F)
    (fk0 : List (F × F)) (opts : NufftOpts)
    (hcexp : env.cexp 0 = (1, 0))
    (hsetup : ∀ e o, env.setupIer e o = 0)
    (hnf12 : ∀ a b : Int, env.setNf a * env.setNf b ≤ env.maxNF)
    (hnhg : ∀ sa xa sb xb : F, (env.setNhg sa xa).1 * (env.setNhg sb xb).1 ≤ env.maxNF)
    (hsp : ∀ n1 n2 a b c, (env.spreadD1 n1 n2 a b c).1 ≤ 0)
    (hin : ∀ n1 n2 fw a b, (env.interpD2 n1 n2 fw a b).1 ≤ 0)
    (hinlen : ∀ n1 n2 fw a b, ((env.interpD2 n1 n2 fw a b).2).length = a.length)
    (hts : t.length = s.length) :
    (finufft2d3 env xj yj cj s t iflag eps fk0 opts).outcome = Outcome.ret 0 ∧
    (finufft2d3 env xj yj cj s t iflag eps fk0 opts).fk =
      spec2d3fk env xj yj cj s t iflag eps fk0 opts := by
  have hz : ¬ (0 : Int) ≠ 0 := by simp
  have h2 := fun (a b : List F) (fw : List (F × F)) (m1 m2 : Int) =>
    finufft2d2_ok env a b fw iflag eps m1 m2 fk0 opts (hsetup eps opts) (hnf12 m1 m2) hin
  have h2i := fun (a b : List F) (fw : List (F × F)) (m1 m2 : Int) => (h2 a b fw m1 m2).1
  have h2c := fun (a b : List F) (fw : List (F × F)) (m1 m2 : Int) => (h2 a b fw m1 m2).2
  simp only [finufft2d3, spec2d3fk, hsetup]
  rw [if_neg hz, if_neg (not_lt.mpr (hnhg _ _ _ _))]
  rw [prephaseLoop_eq_all env _ _ _ xj yj cj hcexp]
  rw [if_neg (not_lt.mpr (hsp _ _ _ _ _))]
  simp only [h2i, h2c]
  rw [if_neg hz]
  refine ⟨rfl, ?_⟩
  rw [postdeconvLoop_eq_all env _ _ _ _ _ s t _ _ _ hcexp]
  simp only [onedim_nuft_kernel]
  unfold postdeconvAll
  apply cmapIdx_congr
  intro k a hk
  simp only [hinlen, List.length_map] at hk
  rw [getD_map_of_lt env.phihat _ k (by simpa using hk) 1 0,
    getD_map_of_lt env.phihat _ k (by simpa [hts] using hk) 1 0]

/-- Witness for C3 at a concrete successful run over the rationals. -/
theorem c3_type3_pipeline_witness :
    (finufft2d3 envQ [1] [1] [(1, 0)] [1] [1] 1 1 [] optsD).outcome = Outcome.ret 0 ∧
    (finufft2d3 envQ [1] [1] [(1, 0)] [1] [1] 1 1 [] optsD).fk =
      spec2d3fk envQ [1] [1] [(1, 0)] [1] [1] 1 1 [] optsD :=
  c3_type3_pipeline envQ [1] [1] [(1, 0)] [1] [1] 1 1 [] optsD rfl
    (fun _ _ => rfl) (fun _ _ => by norm_num [envQ]) (fun _ _ _ _ => by norm_num [envQ])
    (fun _ _ _ _ _ => by norm_num [envQ]) (fun _ _ _ _ _ => by norm_num [envQ])
    (fun _ _ _ _ _ => by simp [envQ]) rfl

/-- Witness for C8: at `iflag = 0` the plus sign (plan sign `+1`) is
selected in `finufft2d1`. -/
theorem c8_sign_selection_witness :
    Ev.planCreate 1 ∈ (finufft2d1 envQ [1] [1] [(1, 0)] 0 1 2 2 [] optsD).trace := by
  have h := (c8_sign_selection envQ [1] [1] [(1, 0)] [] [] [] [1] [1] 1 0 1 2 2 optsD
    (by decide) (by decide) (by decide) (by decide)).1
  simpa using h

end Cnufft
